import Mathlib

/-!
# libyami decoder adapter (`libavcodec/libyami_dec.cpp`)

A shallow embedding of the producer/consumer pipeline built around the
external hardware decoder: the bounded input queue, the decode worker, the
status register, output acquisition, the frame release callback and
session open/close.

The two real threads (the caller thread and the decode worker) are modelled
by a step function on one `Session` value.  Every step is one lock-protected
region (or one iteration of a sleep-and-retry loop) of the source; the
scheduler and the external decoder are represented by the `Action` that is
fed to `step`.
-/

namespace Yami

/-! ## Constants that live in headers outside the source tree -/

/-- Constants used by `libyami_dec.cpp` whose declarations are in headers that
are not part of the source tree; they are parameters of the model. -/
structure Config where
  /-- Capacity test constant of the input queue (line 362). -/
  DECODE_QUEUE_SIZE : Nat
  /-- The decoder status `DECODE_SUCCESS`. -/
  DECODE_SUCCESS : Int
  /-- The decoder status `DECODE_FORMAT_CHANGE`. -/
  DECODE_FORMAT_CHANGE : Int
  /-- The decoder status `DECODE_FAIL` (initial value of the local `status`, line 337). -/
  DECODE_FAIL : Int
  /-- The value of `AVERROR(ENOMEM)`. -/
  AVERROR_ENOMEM : Int
  /-- The value of `AVERROR_BUG`. -/
  AVERROR_BUG : Int
  deriving DecidableEq

/-- The status register of the decode worker (`s->decode_status`). -/
inductive DecodeThreadStatus
  | DECODE_THREAD_NOT_INIT
  | DECODE_THREAD_RUNING
  | DECODE_THREAD_GOT_EOS
  | DECODE_THREAD_EXIT
  deriving DecidableEq

open DecodeThreadStatus

/-- Modelled from the spec: the numeric order of the status enumeration, whose
declaration (`libyami_dec.h`) is missing from the source tree.  The spec gives
the order `NOT_INIT → RUNNING → GOT_EOS → EXIT`; the source compares the
register with `<` at line 359. -/
def DecodeThreadStatus.rank : DecodeThreadStatus → Nat
  | DECODE_THREAD_NOT_INIT => 0
  | DECODE_THREAD_RUNING => 1
  | DECODE_THREAD_GOT_EOS => 2
  | DECODE_THREAD_EXIT => 3

/-- The C constant `INT_MAX` for a 32-bit `int`. -/
def INT_MAX : Int := 2147483647

/-- The pixel format constant `AV_PIX_FMT_NONE`. -/
def AV_PIX_FMT_NONE : Int := -1

/-! ## Data model -/

/-- An encoded buffer handed to the decoder (`VideoDecodeBuffer`): `data` is
`none` for a null pointer. -/
structure VideoDecodeBuffer where
  data : Option (List Nat)
  size : Nat
  timeStamp : Int
  deriving DecidableEq

/-- The fields of `AVPacket` read by `yami_dec_frame`; `data` is `none` for a
null pointer and the size is not negative. -/
structure AVPacket where
  data : Option (List Nat)
  size : Nat
  pts : Int
  duration : Int
  deriving DecidableEq

/-- The fields of `VideoFormatInfo` read by the adapter. -/
structure VideoFormatInfo where
  width : Int
  height : Int
  deriving DecidableEq

/-- A decoded surface returned by `getOutput()`. -/
structure VideoFrame where
  surface : Nat
  timeStamp : Int
  deriving DecidableEq

/-- The wrapper `YamiImage` around a decoded surface.  `output_frame` is the
shared reference to the surface (`none` after `reset()`), `frees` counts the
calls of `av_free` on the wrapper. -/
structure YamiImage where
  output_frame : Option VideoFrame
  frees : Nat
  deriving DecidableEq

/-- The rational `AVRational`. -/
structure AVRational where
  num : Int
  den : Int
  deriving DecidableEq

/-- The codec identifiers known to `get_mime`, and one representative of all others. -/
inductive AVCodecID
  | AV_CODEC_ID_H264
  | AV_CODEC_ID_HEVC
  | AV_CODEC_ID_VP8
  | AV_CODEC_ID_MPEG2VIDEO
  | AV_CODEC_ID_VC1
  | AV_CODEC_ID_VP9
  | AV_CODEC_ID_OTHER
  deriving DecidableEq

open AVCodecID

/-- The fields of `AVCodecContext` touched by the adapter. -/
structure AVCodecContext where
  codec_id : AVCodecID
  pix_fmt : Int
  ticks_per_frame : Int
  time_base : AVRational
  width : Int
  height : Int
  deriving DecidableEq

/-- Program points of the decode worker `ff_yami_decode_thread`. -/
inductive WorkerPc
  /-- Top of the `while (1)` loop (line 84). -/
  | head
  /-- The front buffer has been read and the queue lock released (line 111). -/
  | got (in_buffer : VideoDecodeBuffer)
  /-- The buffer was decoded successfully; counting and `pop_front` follow (line 149). -/
  | decoded (in_buffer : VideoDecodeBuffer)
  /-- The loop was left; the register is about to be set to `EXIT` (line 158). -/
  | exiting
  deriving DecidableEq

/-- Program points of the caller thread. -/
inductive CallerPc
  /-- Between two calls of the plugin interface. -/
  | idle
  /-- In `yami_dec_frame`, at the submission loop (line 359). -/
  | submit (avpkt : AVPacket) (in_buffer : VideoDecodeBuffer)
  /-- In `yami_dec_frame`, before the thread status update (line 379). -/
  | status_update (avpkt : AVPacket)
  /-- In `yami_dec_frame`, at the top of the output loop (line 403). -/
  | get_output (avpkt : AVPacket)
  /-- In `yami_dec_frame`, in the inner polling loop (line 415). -/
  | poll_output (avpkt : AVPacket)
  /-- In `yami_dec_close`, inside `ff_yami_decode_thread_close` (line 66). -/
  | thread_close
  deriving DecidableEq

/-- The whole session: the private context `YamiDecContext`, the codec
context, both threads, and the bookkeeping needed to state the properties
(decode trace, delivered images, counts of released resources). -/
structure Session where
  /-- The codec context `avctx`. -/
  avctx : AVCodecContext
  /-- Whether `s->decoder` is non-null. -/
  decoder : Bool
  /-- Whether `s->p_alloc` is non-null. -/
  p_alloc : Bool
  /-- Contents of `*s->in_queue`, front first. -/
  in_queue : List VideoDecodeBuffer
  decode_status : DecodeThreadStatus
  format_info : Option VideoFormatInfo
  duration : Int
  decode_count : Nat
  decode_count_yami : Nat
  render_count : Nat
  /-- The buffers passed to `s->decoder->decode()`, oldest first. -/
  trace : List VideoDecodeBuffer
  /-- The live decode workers (threads created at line 385 that have not yet set `EXIT`). -/
  workers : List WorkerPc
  /-- Where the caller thread stands. -/
  caller : CallerPc
  /-- The integer `*got_frame` of the current or last `yami_dec_frame` call. -/
  got_frame : Int
  /-- Return value of the last finished call. -/
  ret : Option Int
  /-- The images handed to the framework by `ff_convert_to_frame`. -/
  images : List YamiImage
  /-- Number of `stop()`/`releaseVideoDecoder` executions. -/
  decoder_releases : Nat
  /-- Number of `av_free(s->p_alloc)` executions. -/
  p_alloc_frees : Nat
  /-- Number of `delete s->in_queue` executions. -/
  in_queue_deletes : Nat
  /-- Number of times `yami_dec_close` read the queue after it had been deleted. -/
  in_queue_stale_reads : Nat
  deriving DecidableEq

/-- Replies of the external decoder during one worker step. -/
structure DecoderReply where
  /-- Result of `decode(in_buffer)` at line 114. -/
  first : Int
  /-- Result of `getFormatInfo()` at line 119. -/
  info_first : Option VideoFormatInfo
  /-- Result of `getFormatInfo()` at line 131. -/
  info_change : Option VideoFormatInfo
  /-- Result of `decode(in_buffer)` at line 138. -/
  second : Int
  /-- The unassigned `timeStamp` of the stack variable `flush_buffer` (line 94). -/
  flush_ts : Int
  deriving DecidableEq

/-- Results of the external calls made by `yami_dec_init`. -/
structure InitEnv where
  /-- Result of `ff_get_format`. -/
  get_format : Int
  /-- Whether `ff_vaapi_create_display` returned a display. -/
  va_display : Bool
  /-- Whether `createVideoDecoder` returned a decoder. -/
  decoder : Bool
  /-- Result of `s->decoder->start`. -/
  start_status : Int
  /-- Result of `ff_yami_decode_thread_init`. -/
  thread_init : Int
  deriving DecidableEq

/-- One scheduling step of the session. -/
inductive Action
  /-- The framework calls `yami_dec_frame`; `got_frame` is the value `*got_frame`
  holds on entry, the booleans say whether the two allocations succeed. -/
  | decode_frame (avpkt : AVPacket) (got_frame : Int) (alloc_buffer alloc_data : Bool)
  /-- The framework calls `yami_dec_close`. -/
  | close
  /-- The caller thread runs to its next program point; `alloc_image` is the
  outcome of the `YamiImage` allocation and `output` the reply of `getOutput()`. -/
  | caller (alloc_image : Bool) (output : Option VideoFrame)
  /-- Worker number `i` runs to its next program point. -/
  | worker (i : Nat) (r : DecoderReply)
  /-- The framework invokes the release callback on delivered image number `i`. -/
  | recycle (i : Nat)
  deriving DecidableEq

/-! ## `yami_dec_init` -/

/-- Wrap of an integer result to the range of a 32-bit signed `int`. -/
def wrap32 (x : Int) : Int := (x + 2147483648) % 4294967296 - 2147483648

/-- Lines 284-293 of `yami_dec_init`: the timing adjustment in the style of
`h264.c`.  The product `den * 2` is taken in 32-bit `int` arithmetic; it can
leave the range only for `den` below -2^30, where the model wraps it. -/
def adjust_timing (avctx : AVCodecContext) : AVCodecContext :=
  if avctx.codec_id = AV_CODEC_ID_H264 then
    let a : AVCodecContext :=
      if avctx.ticks_per_frame = 1 then
        if avctx.time_base.den < INT_MAX / 2 then
          { avctx with time_base := { avctx.time_base with den := wrap32 (avctx.time_base.den * 2) } }
        else
          { avctx with time_base := { avctx.time_base with num := Int.tdiv avctx.time_base.num 2 } }
      else avctx
    { a with ticks_per_frame := 2 }
  else avctx

/-- The private context as the framework allocates it (zero filled) before `init` runs. -/
def zeroed (avctx : AVCodecContext) : Session :=
  { avctx := avctx, decoder := false, p_alloc := false, in_queue := [],
    decode_status := DECODE_THREAD_NOT_INIT, format_info := none, duration := 0,
    decode_count := 0, decode_count_yami := 0, render_count := 0,
    trace := [], workers := [], caller := CallerPc.idle, got_frame := 0, ret := none,
    images := [], decoder_releases := 0, p_alloc_frees := 0, in_queue_deletes := 0,
    in_queue_stale_reads := 0 }

/-- The function `yami_dec_init` (lines 239-320).  The result is the return
value and the session it leaves behind; `none` stands for the failed
`av_assert0` of `get_mime` on an unknown codec. -/
def yami_dec_init (cfg : Config) (env : InitEnv) (avctx0 : AVCodecContext) :
    Option (Int × Session) :=
  let st0 := zeroed avctx0
  if avctx0.pix_fmt = AV_PIX_FMT_NONE ∧ env.get_format < 0 then
    some (env.get_format, st0)
  else
    let avctx1 : AVCodecContext :=
      if avctx0.pix_fmt = AV_PIX_FMT_NONE then { avctx0 with pix_fmt := env.get_format } else avctx0
    let st1 := { st0 with avctx := avctx1 }
    if !env.va_display then some (cfg.AVERROR_BUG, st1)
    else if avctx1.codec_id = AV_CODEC_ID_OTHER then none
    else if !env.decoder then some (cfg.AVERROR_BUG, st1)
    else
      let st2 := { st1 with decoder := true, p_alloc := true, avctx := adjust_timing avctx1 }
      if env.start_status ≠ cfg.DECODE_SUCCESS ∧ env.start_status ≠ cfg.DECODE_FORMAT_CHANGE then
        some (cfg.AVERROR_BUG, st2)
      else if env.thread_init < 0 then
        some (cfg.AVERROR_ENOMEM, st2)
      else
        some (0, { st2 with in_queue := [], decode_status := DECODE_THREAD_NOT_INIT,
                            decode_count := 0, decode_count_yami := 0, render_count := 0 })

/-- The session left behind by a successful `yami_dec_init` on a codec
context whose pixel format has been settled: decoder and allocator binding
exist, the timing adjustment is applied, the queue is empty, the register is
`NOT_INIT` and the counters are zero. -/
def opened (avctx : AVCodecContext) : Session :=
  { zeroed (adjust_timing avctx) with decoder := true, p_alloc := true }

/-- Lines 252-258: the codec context after the pixel format negotiation. -/
def negotiated (env : InitEnv) (avctx : AVCodecContext) : AVCodecContext :=
  if avctx.pix_fmt = AV_PIX_FMT_NONE then { avctx with pix_fmt := env.get_format } else avctx

/-- The external calls of `yami_dec_init` all succeed and the codec is one
that `get_mime` knows. -/
def init_succeeds (cfg : Config) (env : InitEnv) (avctx : AVCodecContext) : Prop :=
  (avctx.pix_fmt = AV_PIX_FMT_NONE → 0 ≤ env.get_format) ∧
  env.va_display = true ∧
  avctx.codec_id ≠ AV_CODEC_ID_OTHER ∧
  env.decoder = true ∧
  (env.start_status = cfg.DECODE_SUCCESS ∨ env.start_status = cfg.DECODE_FORMAT_CHANGE) ∧
  0 ≤ env.thread_init

/-! ## `yami_dec_frame` -/

/-- The test `avpkt->data && avpkt->size`. -/
def AVPacket.has_data (avpkt : AVPacket) : Bool :=
  avpkt.data.isSome && avpkt.size != 0

/-- Lines 344-355: the queue entry built from a packet.  The data pointer stays
null unless the packet has data and a non-zero size. -/
def mk_in_buffer (avpkt : AVPacket) : VideoDecodeBuffer :=
  { data := match avpkt.data with
      | some d => if avpkt.size ≠ 0 then some (d.take avpkt.size) else none
      | none => none,
    size := avpkt.size,
    timeStamp := avpkt.pts }

/-- Lines 333-357: entry of `yami_dec_frame` up to the submission loop. -/
def yami_dec_frame_entry (cfg : Config) (st : Session) (avpkt : AVPacket) (gf : Int)
    (alloc_buffer alloc_data : Bool) : Session :=
  let st := { st with got_frame := gf, ret := none }
  if !st.decoder then { st with ret := some (-1) }
  else if !alloc_buffer then { st with ret := some cfg.AVERROR_ENOMEM }
  else if avpkt.has_data && !alloc_data then { st with ret := some cfg.AVERROR_ENOMEM }
  else
    { st with
      duration := if avpkt.duration ≠ 0 then avpkt.duration else st.duration,
      caller := CallerPc.submit avpkt (mk_in_buffer avpkt) }

/-- Lines 359-376: one evaluation of the submission loop, condition and body
taken as one step: the register is compared with `GOT_EOS`, and under
`in_mutex` the buffer is appended when the queue is below its capacity;
otherwise the caller sleeps and evaluates the loop again.  Leaving the loop
counts the call in `decode_count`. -/
def yami_dec_frame_submit (cfg : Config) (st : Session) (avpkt : AVPacket)
    (in_buffer : VideoDecodeBuffer) : Session :=
  if st.decode_status.rank < DECODE_THREAD_GOT_EOS.rank then
    if st.in_queue.length < cfg.DECODE_QUEUE_SIZE then
      { st with
        in_queue := st.in_queue ++ [in_buffer],
        decode_count := st.decode_count + 1,
        caller := CallerPc.status_update avpkt }
    else st
  else
    { st with decode_count := st.decode_count + 1, caller := CallerPc.status_update avpkt }

/-- Lines 378-400: the thread status update under `ctx_mutex`.  The call of
`pthread_create` is taken to start the worker; the source does not test its
result. -/
def yami_dec_frame_status_update (st : Session) (avpkt : AVPacket) : Session :=
  let st1 : Session :=
    match st.decode_status with
    | DECODE_THREAD_NOT_INIT | DECODE_THREAD_EXIT =>
      if avpkt.has_data then
        { st with decode_status := DECODE_THREAD_RUNING, workers := st.workers ++ [WorkerPc.head] }
      else st
    | DECODE_THREAD_RUNING =>
      if !avpkt.has_data then { st with decode_status := DECODE_THREAD_GOT_EOS } else st
    | DECODE_THREAD_GOT_EOS => st
  { st1 with caller := CallerPc.get_output avpkt }

/-- Lines 403-413 and 435-439: the top of the output loop.  Without format
information the body is skipped by `continue`, the loop condition is tested,
and when it fails the function returns through the test of the local
`status`, which still holds `DECODE_FAIL`. -/
def yami_dec_frame_get_output (cfg : Config) (st : Session) (avpkt : AVPacket)
    (alloc_image : Bool) : Session :=
  match st.format_info with
  | none =>
    if st.decode_status = DECODE_THREAD_RUNING then st
    else if cfg.DECODE_FAIL ≠ cfg.DECODE_SUCCESS then
      { st with ret := some (avpkt.size : Int), caller := CallerPc.idle }
    else
      { st with got_frame := 1, render_count := st.render_count + 1,
                ret := some (avpkt.size : Int), caller := CallerPc.idle }
  | some _ =>
    if !alloc_image then { st with ret := some cfg.AVERROR_ENOMEM, caller := CallerPc.idle }
    else { st with caller := CallerPc.poll_output avpkt }

/-- Lines 415-434 and 441-450: one round of the inner polling loop, and the
delivery of the frame when one was pulled. -/
def yami_dec_frame_poll_output (st : Session) (avpkt : AVPacket)
    (output : Option VideoFrame) : Session :=
  if avpkt.data.isSome || output.isSome || st.decode_status = DECODE_THREAD_EXIT then
    match output with
    | some f =>
      { st with
        images := st.images ++ [{ output_frame := some f, frees := 0 }],
        got_frame := 1,
        render_count := st.render_count + 1,
        ret := some (avpkt.size : Int),
        caller := CallerPc.idle }
    | none =>
      { st with got_frame := 0, ret := some (avpkt.size : Int), caller := CallerPc.idle }
  else st

/-! ## `ff_yami_decode_thread` -/

/-- The stack variable `flush_buffer` of lines 94-96. -/
def flush_buffer (ts : Int) : VideoDecodeBuffer :=
  { data := none, size := 0, timeStamp := ts }

/-- Lines 90-111: the worker looks at the queue under `in_mutex`. -/
def ff_yami_decode_thread_head (st : Session) (i : Nat) (r : DecoderReply) : Session :=
  match st.in_queue with
  | [] =>
    if st.decode_status = DECODE_THREAD_GOT_EOS then
      { st with trace := st.trace ++ [flush_buffer r.flush_ts],
                workers := st.workers.set i WorkerPc.exiting }
    else st
  | b :: _ => { st with workers := st.workers.set i (WorkerPc.got b) }

/-- Lines 128-147: the handling of a format change (the buffer is sent to the
decoder a second time) and the test that ends the loop; `status` is the
result of the first `decode` call. -/
def ff_yami_decode_thread_decode_tail (cfg : Config) (st : Session) (i : Nat)
    (b : VideoDecodeBuffer) (r : DecoderReply) : Session :=
  let changed : Session × Int :=
    if r.first = cfg.DECODE_FORMAT_CHANGE then
      let st3 : Session :=
        match r.info_change with
        | some f =>
          { st with format_info := some f,
                    avctx := { st.avctx with width := f.width, height := f.height } }
        | none => { st with format_info := none }
      ({ st3 with trace := st3.trace ++ [b] }, r.second)
    else (st, r.first)
  if changed.2 < 0 ∨ changed.1.format_info = none then
    { changed.1 with workers := changed.1.workers.set i WorkerPc.exiting }
  else
    { changed.1 with workers := changed.1.workers.set i (WorkerPc.decoded b) }

/-- Lines 114-147: the worker decodes the buffer it holds.  The logging call of
line 120 reads `format_info->width` before the null test, so a null reply
there has no successor state. -/
def ff_yami_decode_thread_decode (cfg : Config) (st : Session) (i : Nat)
    (b : VideoDecodeBuffer) (r : DecoderReply) : Option Session :=
  let st1 := { st with trace := st.trace ++ [b] }
  if r.first = cfg.DECODE_SUCCESS ∧ st1.format_info = none then
    match r.info_first with
    | none => none
    | some f =>
      some (ff_yami_decode_thread_decode_tail cfg
        { st1 with format_info := some f,
                   avctx := { st1.avctx with width := f.width, height := f.height } } i b r)
  else some (ff_yami_decode_thread_decode_tail cfg st1 i b r)

/-- Lines 149-155: count the buffer and remove it from the queue.  The call
`pop_front` on an empty queue is undefined and has no successor state. -/
def ff_yami_decode_thread_pop (st : Session) (i : Nat) : Option Session :=
  match st.in_queue with
  | [] => none
  | _ :: q =>
    some { st with decode_count_yami := st.decode_count_yami + 1,
                   in_queue := q,
                   workers := st.workers.set i WorkerPc.head }

/-- Lines 158-162: the last action of the worker. -/
def ff_yami_decode_thread_exit (st : Session) (i : Nat) : Session :=
  { st with decode_status := DECODE_THREAD_EXIT, workers := st.workers.eraseIdx i }

/-- One step of worker number `i`. -/
def ff_yami_decode_thread (cfg : Config) (st : Session) (i : Nat) (r : DecoderReply) :
    Option Session :=
  match st.workers[i]? with
  | none => none
  | some WorkerPc.head => some (ff_yami_decode_thread_head st i r)
  | some (WorkerPc.got b) => ff_yami_decode_thread_decode cfg st i b r
  | some (WorkerPc.decoded _) => ff_yami_decode_thread_pop st i
  | some WorkerPc.exiting => some (ff_yami_decode_thread_exit st i)

/-! ## `ff_yami_recycle_frame` and `yami_dec_close` -/

/-- Lines 165-178: the release callback on delivered image number `i`. -/
def ff_yami_recycle_frame (st : Session) (i : Nat) : Option Session :=
  match st.images[i]? with
  | none => none
  | some img =>
    if !st.decoder then some st
    else some { st with images := st.images.set i { output_frame := none, frees := img.frees + 1 } }

/-- Lines 466-481: the body of `yami_dec_close` after the worker has been
driven to termination. -/
def yami_dec_close_rest (st : Session) : Session :=
  let st1 : Session :=
    if st.decoder then { st with decoder := false, decoder_releases := st.decoder_releases + 1 }
    else st
  let st2 : Session :=
    if st1.p_alloc then { st1 with p_alloc_frees := st1.p_alloc_frees + 1 } else st1
  { st2 with
    in_queue_stale_reads :=
      if 0 < st2.in_queue_deletes then st2.in_queue_stale_reads + 1 else st2.in_queue_stale_reads,
    in_queue := [],
    in_queue_deletes := st2.in_queue_deletes + 1,
    ret := some 0,
    caller := CallerPc.idle }

/-- Lines 60-78 followed by the rest of `yami_dec_close`: one round of the
termination spin of `ff_yami_decode_thread_close`, or, once the register shows
`EXIT` or `NOT_INIT`, the release of the session's resources. -/
def yami_dec_close_iter (st : Session) : Session :=
  if st.decode_status ≠ DECODE_THREAD_EXIT ∧ st.decode_status ≠ DECODE_THREAD_NOT_INIT then
    { st with decode_status := DECODE_THREAD_GOT_EOS }
  else yami_dec_close_rest st

/-! ## The step function -/

/-- One step of the caller thread inside the current call. -/
def caller_step (cfg : Config) (st : Session) (alloc_image : Bool)
    (output : Option VideoFrame) : Option Session :=
  match st.caller with
  | CallerPc.idle => none
  | CallerPc.submit avpkt in_buffer => some (yami_dec_frame_submit cfg st avpkt in_buffer)
  | CallerPc.status_update avpkt => some (yami_dec_frame_status_update st avpkt)
  | CallerPc.get_output avpkt => some (yami_dec_frame_get_output cfg st avpkt alloc_image)
  | CallerPc.poll_output avpkt => some (yami_dec_frame_poll_output st avpkt output)
  | CallerPc.thread_close => some (yami_dec_close_iter st)

/-- The step function of the session; `none` when the action is not enabled. -/
def step (cfg : Config) (st : Session) : Action → Option Session
  | Action.decode_frame avpkt gf a1 a2 =>
    if st.caller = CallerPc.idle then some (yami_dec_frame_entry cfg st avpkt gf a1 a2) else none
  | Action.close =>
    if st.caller = CallerPc.idle then some { st with caller := CallerPc.thread_close } else none
  | Action.caller alloc_image output => caller_step cfg st alloc_image output
  | Action.worker i r => ff_yami_decode_thread cfg st i r
  | Action.recycle i => ff_yami_recycle_frame st i

/-- Run a schedule from a state. -/
def run (cfg : Config) (st : Session) : List Action → Option Session
  | [] => some st
  | a :: rest => (step cfg st a).bind fun st1 => run cfg st1 rest

/-! ## Notions used to state the ordering properties -/

/-- The reply of a decoder that accepts the buffer: `decode` returns
`DECODE_SUCCESS` and format information is available when it is first asked for. -/
def DecoderReply.accepts (cfg : Config) (r : DecoderReply) : Prop :=
  r.first = cfg.DECODE_SUCCESS ∧ r.info_first.isSome = true

/-- A nominal action: no allocation of `yami_dec_frame` fails, the decoder
accepts every buffer, and the session is not closed. -/
def Nominal (cfg : Config) : Action → Prop
  | Action.decode_frame _ _ alloc_buffer alloc_data => alloc_buffer = true ∧ alloc_data = true
  | Action.close => False
  | Action.caller _ _ => True
  | Action.worker _ r => r.accepts cfg
  | Action.recycle _ => True

instance (cfg : Config) (r : DecoderReply) : Decidable (r.accepts cfg) := by
  unfold DecoderReply.accepts
  infer_instance

instance (cfg : Config) : DecidablePred (Nominal cfg) := fun a => by
  cases a <;> unfold Nominal <;> infer_instance

/-- The packets of the `yami_dec_frame` calls of a schedule, in call order. -/
def calls : List Action → List AVPacket
  | [] => []
  | Action.decode_frame avpkt _ _ _ :: rest => avpkt :: calls rest
  | _ :: rest => calls rest

/-- The queue entries built from a list of packets. -/
def buffers (ps : List AVPacket) : List VideoDecodeBuffer := ps.map mk_in_buffer

/-- The buffer a caller at program point `c` holds in the submission loop and
has not queued yet. -/
def hand_of : CallerPc → List VideoDecodeBuffer
  | CallerPc.submit _ in_buffer => [in_buffer]
  | _ => []

/-- The buffer the caller holds in the submission loop and has not queued yet. -/
def hand (st : Session) : List VideoDecodeBuffer := hand_of st.caller

/-- The queued buffers that have not been passed to `decode` yet: the whole
queue, except for its front entry while the worker stands between the
`decode` call and `pop_front`. -/
def pending (st : Session) : List VideoDecodeBuffer :=
  match st.workers with
  | [WorkerPc.decoded _] => st.in_queue.tail
  | _ => st.in_queue

/-- The relation between the worker slot `ws`, the register, the decode
trace, the queue, the buffer in the caller's hand and the submitted buffers
`bufs` that holds along nominal runs.  Before the flush the trace followed by
the buffers still waiting is the submitted sequence; after it the trace is the
submitted sequence followed by the flush buffer. -/
def Core (bufs : List VideoDecodeBuffer) (ws : List WorkerPc) (status : DecodeThreadStatus)
    (trace queue hnd : List VideoDecodeBuffer) : Prop :=
  match ws with
  | [] =>
    (status = DECODE_THREAD_NOT_INIT ∧ trace ++ queue ++ hnd = bufs) ∨
    (status = DECODE_THREAD_EXIT ∧ ∃ ts, trace = bufs ++ [flush_buffer ts] ∧ queue = [])
  | [WorkerPc.head] =>
    (status = DECODE_THREAD_RUNING ∨ status = DECODE_THREAD_GOT_EOS) ∧
    trace ++ queue ++ hnd = bufs
  | [WorkerPc.got b] =>
    (status = DECODE_THREAD_RUNING ∨ status = DECODE_THREAD_GOT_EOS) ∧
    queue.head? = some b ∧ trace ++ queue ++ hnd = bufs
  | [WorkerPc.decoded b] =>
    (status = DECODE_THREAD_RUNING ∨ status = DECODE_THREAD_GOT_EOS) ∧
    queue.head? = some b ∧ trace ++ queue.tail ++ hnd = bufs
  | [WorkerPc.exiting] =>
    status = DECODE_THREAD_GOT_EOS ∧ ∃ ts, trace = bufs ++ [flush_buffer ts] ∧ queue = []
  | _ => False

/-- What the caller's program point says about the packets `cs` of the calls
made so far: once the register shows `GOT_EOS` or `EXIT`, the last call carried
no data and the caller is past the status update; a caller in the submission
loop or at the status update works on the last packet; the caller is not
inside `yami_dec_close`. -/
def CallerOk (cs : List AVPacket) (status : DecodeThreadStatus) (c : CallerPc) : Prop :=
  ((status = DECODE_THREAD_GOT_EOS ∨ status = DECODE_THREAD_EXIT) →
    (∃ e, cs.getLast? = some e ∧ e.has_data = false) ∧ hand_of c = [] ∧
    ∀ p, c ≠ CallerPc.status_update p) ∧
  (∀ p b, c = CallerPc.submit p b → cs.getLast? = some p) ∧
  (∀ p, c = CallerPc.status_update p → cs.getLast? = some p) ∧
  c ≠ CallerPc.thread_close

/-- The invariant of nominal runs after the calls with packets `cs`. -/
def Fifo (cs : List AVPacket) (st : Session) : Prop :=
  st.decoder = true ∧ CallerOk cs st.decode_status st.caller ∧
  Core (buffers cs) st.workers st.decode_status st.trace st.in_queue (hand st)

/-- Only the last packet of the list may be without data: the end-of-stream
packet, if there is one, is the last call. -/
def EosLast (cs : List AVPacket) : Prop := ∀ q ∈ cs.dropLast, q.has_data = true

/-- A reply by which the decoder accepts the buffer. -/
def accepting_reply (cfg : Config) : DecoderReply :=
  { first := cfg.DECODE_SUCCESS, info_first := some { width := 0, height := 0 },
    info_change := none, second := cfg.DECODE_SUCCESS, flush_ts := 0 }

/-- The schedule that runs one call with a data packet to its end while the
worker decodes the packet: entry, submission, status update, the worker's
look, decode and pop, and the two steps of the output loop. -/
def sched_packet (cfg : Config) (p : AVPacket) : List Action :=
  [Action.decode_frame p 0 true true, Action.caller true none, Action.caller true none,
   Action.worker 0 (accepting_reply cfg), Action.worker 0 (accepting_reply cfg),
   Action.worker 0 (accepting_reply cfg), Action.caller true none, Action.caller true none]

/-- The schedule that runs the calls for a list of data packets one after the other. -/
def sched_packets (cfg : Config) : List AVPacket → List Action
  | [] => []
  | p :: rest => sched_packet cfg p ++ sched_packets cfg rest

/-- The schedule of the end-of-stream call: entry, submission, status update,
the worker's look, decode and pop of the queued buffer, the flush, the
worker's exit, and the two steps of the output loop. -/
def sched_eos (cfg : Config) (e : AVPacket) : List Action :=
  [Action.decode_frame e 0 true true, Action.caller true none, Action.caller true none,
   Action.worker 0 (accepting_reply cfg), Action.worker 0 (accepting_reply cfg),
   Action.worker 0 (accepting_reply cfg), Action.worker 0 (accepting_reply cfg),
   Action.worker 0 (accepting_reply cfg), Action.caller true none, Action.caller true none]

/-- A session between two calls, with an empty queue, in which either no
worker was ever started or the worker waits at the top of its loop. -/
def Ready (st : Session) : Prop :=
  st.caller = CallerPc.idle ∧ st.decoder = true ∧ st.in_queue = [] ∧
  ((st.workers = [] ∧ st.decode_status = DECODE_THREAD_NOT_INIT) ∨
   (st.workers = [WorkerPc.head] ∧ st.decode_status = DECODE_THREAD_RUNING ∧
    st.format_info.isSome = true))

/-- At most one worker is alive, and a live worker means the register is
`RUNING` or `GOT_EOS`. -/
def WorkerInv (st : Session) : Prop :=
  st.workers.length ≤ 1 ∧
  (st.workers.length = 1 →
    st.decode_status = DECODE_THREAD_RUNING ∨ st.decode_status = DECODE_THREAD_GOT_EOS)

/-- Image number `i`, when it exists, has not been released and still holds its surface. -/
def ImageFresh (i : Nat) (st : Session) : Prop :=
  ∀ img, st.images[i]? = some img → img.frees = 0 ∧ img.output_frame.isSome = true

/-! ## Sample inputs -/

/-- Sample constants: a queue of eight entries and the status codes of the
decoder library. -/
def cfg8 : Config :=
  { DECODE_QUEUE_SIZE := 8, DECODE_SUCCESS := 1, DECODE_FORMAT_CHANGE := 2, DECODE_FAIL := 0,
    AVERROR_ENOMEM := -12, AVERROR_BUG := -558323010 }

/-- An environment in which every external call of `yami_dec_init` succeeds. -/
def env_ok : InitEnv :=
  { get_format := 0, va_display := true, decoder := true, start_status := 1, thread_init := 0 }

/-- An H.264 codec context with one tick per frame and the given time base. -/
def avctx_h264 (num den : Int) : AVCodecContext :=
  { codec_id := AV_CODEC_ID_H264, pix_fmt := AV_PIX_FMT_NONE, ticks_per_frame := 1,
    time_base := { num := num, den := den }, width := 0, height := 0 }

/-- A freshly opened sample session. -/
def session0 : Session := opened (avctx_h264 1 25)

/-- A packet carrying three bytes. -/
def pkt_a : AVPacket := { data := some [1, 2, 3], size := 3, pts := 0, duration := 0 }

/-- A second packet carrying two bytes. -/
def pkt_b : AVPacket := { data := some [4, 5], size := 2, pts := 1, duration := 0 }

/-- The end-of-stream packet: null data, size zero. -/
def pkt_eos : AVPacket := { data := none, size := 0, pts := 0, duration := 0 }

/-- A decoder reply that accepts the buffer and reports a 640x480 format. -/
def reply_ok : DecoderReply :=
  { first := 1, info_first := some { width := 640, height := 480 }, info_change := none,
    second := 1, flush_ts := 0 }

/-- A decoder reply that signals a format change to 1280x720 and then accepts the buffer. -/
def reply_change : DecoderReply :=
  { first := 2, info_first := none, info_change := some { width := 1280, height := 720 },
    second := 1, flush_ts := 0 }

/-- A caller step with a successful image allocation and no output frame. -/
def caller_no_output : Action := Action.caller true none

/-- A caller step in which `getOutput()` returns a frame. -/
def caller_output : Action := Action.caller true (some { surface := 7, timeStamp := 0 })

/-- The schedule of a first call with packet `pkt_a` up to the spawning of the worker. -/
def sched_first_call : List Action :=
  [Action.decode_frame pkt_a 0 true true, caller_no_output, caller_no_output]

/-- The sample session after the first packet was queued and the worker spawned. -/
def session1 : Session := (run cfg8 session0 sched_first_call).getD session0

/-- One full worker iteration with accepting replies: look, decode, pop. -/
def sched_worker_round : List Action :=
  [Action.worker 0 reply_ok, Action.worker 0 reply_ok, Action.worker 0 reply_ok]

/-- A first call with the end-of-stream packet while `*got_frame` holds 1:
entry, submission loop, status update, output loop. -/
def sched_eos_first (got_frame : Int) : List Action :=
  [Action.decode_frame pkt_eos got_frame true true, caller_no_output, caller_no_output,
   caller_no_output]

/-- A schedule that decodes `pkt_a` (which starts the worker) and `pkt_b`
(submitted to the running worker), then submits the end-of-stream packet and
lets the worker run until it has set `EXIT`; every reply accepts the buffer. -/
def sched_stream_eos : List Action :=
  sched_first_call ++ sched_worker_round ++ [caller_no_output, caller_no_output] ++
  [Action.decode_frame pkt_b 0 true true, caller_no_output, caller_no_output] ++
  sched_worker_round ++ [caller_no_output, caller_no_output] ++
  [Action.decode_frame pkt_eos 0 true true, caller_no_output, caller_no_output] ++
  sched_worker_round ++ [Action.worker 0 reply_ok, Action.worker 0 reply_ok] ++
  [caller_no_output, caller_no_output]

/-- A packet carrying one byte. -/
def pkt_c : AVPacket := { data := some [6], size := 1, pts := 2, duration := 0 }

/-- A call with `pkt_c`, run up to the end of the status update, followed by
one round of the worker. -/
def sched_late_call : List Action :=
  [Action.decode_frame pkt_c 0 true true, caller_no_output, caller_no_output] ++
  sched_worker_round

/-- A schedule that delivers one frame to the framework and then closes the session. -/
def sched_deliver_close : List Action :=
  sched_first_call ++ sched_worker_round ++ [caller_no_output, caller_output] ++
  [Action.close, caller_no_output, Action.worker 0 reply_ok, Action.worker 0 reply_ok,
   caller_no_output]

/-- A first call with the data packet `pkt_a` while `*got_frame` holds
`got_frame`, run until the output loop returns without a frame: entry,
submission, status update, the worker's look and decode, and the two steps of
the output loop. -/
def sched_no_frame (got_frame : Int) : List Action :=
  [Action.decode_frame pkt_a got_frame true true, caller_no_output, caller_no_output,
   Action.worker 0 reply_ok, Action.worker 0 reply_ok, caller_no_output, caller_no_output]

/-- One complete call of `yami_dec_close` on a session without a live worker. -/
def sched_close : List Action := [Action.close, caller_no_output]

/-- Sample constants with a queue of one entry. -/
def cfg1 : Config := { cfg8 with DECODE_QUEUE_SIZE := 1 }

/-- A schedule after which the queue of `cfg1` is full and a second call stands
at the submission loop: the worker has decoded the first buffer but not yet
removed it. -/
def sched_full_queue : List Action :=
  sched_first_call ++ [Action.worker 0 reply_ok, Action.worker 0 reply_ok] ++
  [caller_no_output, caller_no_output] ++ [Action.decode_frame pkt_b 0 true true]

/-- A schedule that delivers one frame to the framework and leaves the session open. -/
def sched_deliver : List Action :=
  sched_first_call ++ sched_worker_round ++ [caller_no_output, caller_output]

/-- The sample session in which a worker is running, the first packet has been
decoded, and a call with the end-of-stream packet stands at the submission loop. -/
def session_eos : Session :=
  (run cfg8 session0
    (sched_first_call ++ sched_worker_round ++ [caller_no_output, caller_no_output] ++
      [Action.decode_frame pkt_eos 0 true true])).getD session0

/-! ## Theorems -/

/-! ### Schedules and invariants -/

theorem run_nil (cfg : Config) (st : Session) : run cfg st [] = some st := rfl

theorem run_cons (cfg : Config) (st : Session) (a : Action) (rest : List Action) :
    run cfg st (a :: rest) = (step cfg st a).bind fun st1 => run cfg st1 rest := rfl

theorem run_append (cfg : Config) (as bs : List Action) (st : Session) :
    run cfg st (as ++ bs) = (run cfg st as).bind fun st1 => run cfg st1 bs := by
  induction as generalizing st with
  | nil => simp [run]
  | cons a rest ih =>
    simp only [List.cons_append, run_cons]
    cases step cfg st a with
    | none => simp
    | some st1 => simp [ih]

/-- An invariant of every enabled step holds along every schedule. -/
theorem run_invariant (cfg : Config) (P : Session → Prop) (ok : Action → Prop)
    (hstep : ∀ st a st', P st → ok a → step cfg st a = some st' → P st') :
    ∀ (as : List Action) (st st' : Session), P st → (∀ a ∈ as, ok a) →
      run cfg st as = some st' → P st' := by
  intro as
  induction as with
  | nil => intro st st' h _ hr; simp [run] at hr; subst hr; exact h
  | cons a rest ih =>
    intro st st' h hok hr
    rw [run_cons] at hr
    cases hs : step cfg st a with
    | none => rw [hs] at hr; simp at hr
    | some st1 =>
      rw [hs] at hr
      exact ih st1 st' (hstep st a st1 h (hok a (List.mem_cons_self _ _)) hs)
        (fun b hb => hok b (List.mem_cons_of_mem _ hb)) hr

/-- Every invariant of the enabled steps holds in every state reachable from
an opened session. -/
theorem reachable_invariant (cfg : Config) (P : Session → Prop)
    (hstep : ∀ st a st', P st → step cfg st a = some st' → P st')
    (as : List Action) (st st' : Session) (h : P st) (hr : run cfg st as = some st') : P st' :=
  run_invariant cfg P (fun _ => True) (fun st a st' hp _ hs => hstep st a st' hp hs)
    as st st' h (fun _ _ => trivial) hr

theorem index_lt_of_getElem? {α : Type} (l : List α) (i : Nat) (w : α)
    (h : l[i]? = some w) : i < l.length := by
  rcases Nat.lt_or_ge i l.length with h1 | h1
  · exact h1
  · rw [List.getElem?_eq_none h1] at h; cases h

/-- Every step only appends to the decode trace. -/
theorem step_trace_prefix (cfg : Config) (st : Session) (a : Action) (st' : Session)
    (hs : step cfg st a = some st') : ∃ l, st'.trace = st.trace ++ l := by
  cases a <;>
    simp only [step, caller_step, yami_dec_frame_entry, yami_dec_frame_submit,
      yami_dec_frame_status_update, yami_dec_frame_get_output, yami_dec_frame_poll_output,
      yami_dec_close_iter, yami_dec_close_rest, ff_yami_decode_thread,
      ff_yami_decode_thread_head, ff_yami_decode_thread_decode,
      ff_yami_decode_thread_decode_tail, ff_yami_decode_thread_pop,
      ff_yami_decode_thread_exit, ff_yami_recycle_frame] at hs <;>
    (repeat' split at hs) <;>
    (try simp only [Option.some.injEq, reduceCtorEq] at hs) <;>
    (try subst hs) <;>
    (try simp)

/-! ### Session open and the timing adjustment (C10) -/

theorem yami_dec_init_succeeds (cfg : Config) (env : InitEnv) (avctx : AVCodecContext)
    (h : init_succeeds cfg env avctx) :
    yami_dec_init cfg env avctx = some (0, opened (negotiated env avctx)) := by
  obtain ⟨h1, h2, h3, h4, h5, h6⟩ := h
  have h3' : (negotiated env avctx).codec_id ≠ AV_CODEC_ID_OTHER := by
    unfold negotiated; split <;> simpa using h3
  unfold yami_dec_init
  have hg : ¬ (avctx.pix_fmt = AV_PIX_FMT_NONE ∧ env.get_format < 0) := by
    rintro ⟨a, b⟩; have := h1 a; omega
  have hs : ¬ (env.start_status ≠ cfg.DECODE_SUCCESS ∧ env.start_status ≠ cfg.DECODE_FORMAT_CHANGE) := by
    rintro ⟨a, b⟩; rcases h5 with h5 | h5 <;> contradiction
  have ht : ¬ env.thread_init < 0 := by omega
  simp only [hg, hs, ht, h2, h4, if_false, Bool.not_true, Bool.false_eq_true]
  unfold negotiated at h3'
  simp only [h3', if_false]
  rfl

theorem adjust_timing_negotiated (env : InitEnv) (avctx : AVCodecContext) :
    (adjust_timing (negotiated env avctx)).time_base = (adjust_timing avctx).time_base ∧
    (adjust_timing (negotiated env avctx)).ticks_per_frame = (adjust_timing avctx).ticks_per_frame := by
  unfold negotiated adjust_timing
  split <;> (constructor <;> (repeat' split) <;> simp_all)

theorem wrap32_id (x : Int) (h1 : -2147483648 ≤ x) (h2 : x ≤ 2147483647) : wrap32 x = x := by
  unfold wrap32; omega

/-- Claim C10 (amended): when `yami_dec_init` succeeds, for H.264 the tick count
becomes 2; with a tick count of 1 and `den < INT_MAX / 2` the numerator is
unchanged and, when `den` is at least -2^30, the denominator is doubled
without overflow; with a tick count of 1 and `den` of at least `INT_MAX / 2`
the numerator is halved by C integer division and the denominator is
unchanged; for another codec or another tick count the time base is
unchanged, and for another codec the tick count is unchanged too. -/
theorem C10_timing_adjustment (cfg : Config) (env : InitEnv) (avctx : AVCodecContext)
    (h : init_succeeds cfg env avctx) :
    ∃ st, yami_dec_init cfg env avctx = some (0, st) ∧
      (avctx.codec_id = AV_CODEC_ID_H264 → st.avctx.ticks_per_frame = 2) ∧
      (avctx.codec_id = AV_CODEC_ID_H264 → avctx.ticks_per_frame = 1 →
        avctx.time_base.den < INT_MAX / 2 →
          st.avctx.time_base.num = avctx.time_base.num ∧
          (-1073741824 ≤ avctx.time_base.den →
            st.avctx.time_base.den = 2 * avctx.time_base.den ∧
            -2147483648 ≤ 2 * avctx.time_base.den ∧ 2 * avctx.time_base.den ≤ INT_MAX)) ∧
      (avctx.codec_id = AV_CODEC_ID_H264 → avctx.ticks_per_frame = 1 →
        INT_MAX / 2 ≤ avctx.time_base.den →
          st.avctx.time_base.den = avctx.time_base.den ∧
          st.avctx.time_base.num = Int.tdiv avctx.time_base.num 2) ∧
      (¬ (avctx.codec_id = AV_CODEC_ID_H264 ∧ avctx.ticks_per_frame = 1) →
        st.avctx.time_base = avctx.time_base) ∧
      (avctx.codec_id ≠ AV_CODEC_ID_H264 →
        st.avctx.ticks_per_frame = avctx.ticks_per_frame) := by
  refine ⟨_, yami_dec_init_succeeds cfg env avctx h, ?_⟩
  have hn := adjust_timing_negotiated env avctx
  have e1 : (opened (negotiated env avctx)).avctx = adjust_timing (negotiated env avctx) := rfl
  rw [e1, hn.1, hn.2]
  have hmax : INT_MAX / 2 = 1073741823 := by decide
  rw [hmax]
  refine ⟨?_, ?_, ?_, ?_, ?_⟩
  · intro hc; simp [adjust_timing, hc]
  · intro hc ht hd
    have hd' : avctx.time_base.den < INT_MAX / 2 := by rw [hmax]; exact hd
    simp only [adjust_timing, hc, ht, hd', if_true]
    refine ⟨trivial, ?_⟩
    intro hlo
    refine ⟨?_, by omega, by unfold INT_MAX; omega⟩
    rw [wrap32_id _ (by omega) (by omega)]; ring
  · intro hc ht hd
    have hd' : ¬ avctx.time_base.den < INT_MAX / 2 := by rw [hmax]; omega
    simp [adjust_timing, hc, ht, hd']
  · intro hn
    unfold adjust_timing
    by_cases hc : avctx.codec_id = AV_CODEC_ID_H264
    · have ht : ¬ avctx.ticks_per_frame = 1 := fun ht => hn ⟨hc, ht⟩
      simp [hc, ht]
    · simp [hc]
  · intro hc; simp [adjust_timing, hc]

/-- Witness for C10: the time base 1/25 of an H.264 stream with one tick per
frame becomes 1/50 with two ticks per frame. -/
theorem C10_timing_adjustment_witness :
    init_succeeds cfg8 env_ok (avctx_h264 1 25) ∧
    ∃ st, yami_dec_init cfg8 env_ok (avctx_h264 1 25) = some (0, st) ∧
      st.avctx.ticks_per_frame = 2 ∧ st.avctx.time_base.num = 1 ∧
      st.avctx.time_base.den = 50 := by
  have hs : init_succeeds cfg8 env_ok (avctx_h264 1 25) :=
    ⟨fun _ => by decide, rfl, by decide, rfl, Or.inl rfl, by decide⟩
  obtain ⟨st, h0, h1, h2, -, -, -⟩ := C10_timing_adjustment cfg8 env_ok (avctx_h264 1 25) hs
  have h2' := h2 rfl rfl (by decide)
  exact ⟨hs, st, h0, h1 rfl, h2'.1, (h2'.2 (by decide)).1⟩

/-- Counterexample to claim C10 as stated: for the time base 4/1073741823
(`den = INT_MAX / 2`) the numerator is halved to 2 and the denominator is
left as it is, where the claim has the denominator halved and the numerator
unchanged. -/
theorem C10_counterexample :
    ∃ st, yami_dec_init cfg8 env_ok (avctx_h264 4 1073741823) = some (0, st) ∧
      st.avctx.time_base = { num := 2, den := 1073741823 } ∧
      ¬ (st.avctx.time_base.num = 4 ∧ st.avctx.time_base.den = 1073741823 / 2) :=
  ⟨_, rfl, rfl, by decide⟩

/-! ### The bounded input queue (C2) -/

/-- The queue bound is kept by every step. -/
theorem step_queue_bound (cfg : Config) (st : Session) (a : Action) (st' : Session)
    (h : st.in_queue.length ≤ cfg.DECODE_QUEUE_SIZE) (hs : step cfg st a = some st') :
    st'.in_queue.length ≤ cfg.DECODE_QUEUE_SIZE := by
  cases a <;>
    simp only [step, caller_step, yami_dec_frame_entry, yami_dec_frame_submit,
      yami_dec_frame_status_update, yami_dec_frame_get_output, yami_dec_frame_poll_output,
      yami_dec_close_iter, yami_dec_close_rest, ff_yami_decode_thread,
      ff_yami_decode_thread_head, ff_yami_decode_thread_decode,
      ff_yami_decode_thread_decode_tail, ff_yami_decode_thread_pop,
      ff_yami_decode_thread_exit, ff_yami_recycle_frame] at hs <;>
    (repeat' split at hs) <;>
    (try simp only [Option.some.injEq, reduceCtorEq] at hs) <;>
    (try subst hs) <;>
    (try simp_all) <;>
    (try omega)

theorem step_queue_grows (cfg : Config) (st : Session) (a : Action) (st' : Session)
    (hs : step cfg st a = some st') (hlen : st.in_queue.length < st'.in_queue.length) :
    ∃ avpkt in_buffer, st.caller = CallerPc.submit avpkt in_buffer ∧
      st.decode_status.rank < DECODE_THREAD_GOT_EOS.rank ∧
      st.in_queue.length < cfg.DECODE_QUEUE_SIZE ∧
      st'.in_queue = st.in_queue ++ [in_buffer] := by
  cases a <;>
    simp only [step, caller_step, yami_dec_frame_entry, yami_dec_frame_submit,
      yami_dec_frame_status_update, yami_dec_frame_get_output, yami_dec_frame_poll_output,
      yami_dec_close_iter, yami_dec_close_rest, ff_yami_decode_thread,
      ff_yami_decode_thread_head, ff_yami_decode_thread_decode,
      ff_yami_decode_thread_decode_tail, ff_yami_decode_thread_pop,
      ff_yami_decode_thread_exit, ff_yami_recycle_frame] at hs <;>
    (repeat' split at hs) <;>
    (try simp only [Option.some.injEq, reduceCtorEq] at hs) <;>
    (try subst hs) <;>
    (try simp_all)

/-- Claim C2: in every state reachable from an opened session the input queue
holds at most `DECODE_QUEUE_SIZE` buffers; a submission step taken while the
queue is at capacity and the register is below `GOT_EOS` changes nothing and
stays in the submission loop; below capacity it appends the caller's buffer;
and every step that lets the queue grow is such a submission step taken below
capacity. -/
theorem C2_queue_bounded (cfg : Config) (avctx : AVCodecContext) :
    (∀ as st, run cfg (opened avctx) as = some st →
      st.in_queue.length ≤ cfg.DECODE_QUEUE_SIZE) ∧
    (∀ st avpkt in_buffer alloc out, st.caller = CallerPc.submit avpkt in_buffer →
      st.decode_status.rank < DECODE_THREAD_GOT_EOS.rank →
      cfg.DECODE_QUEUE_SIZE ≤ st.in_queue.length →
      step cfg st (Action.caller alloc out) = some st) ∧
    (∀ st avpkt in_buffer alloc out, st.caller = CallerPc.submit avpkt in_buffer →
      st.decode_status.rank < DECODE_THREAD_GOT_EOS.rank →
      st.in_queue.length < cfg.DECODE_QUEUE_SIZE →
      ∃ st', step cfg st (Action.caller alloc out) = some st' ∧
        st'.in_queue = st.in_queue ++ [in_buffer] ∧
        st'.caller = CallerPc.status_update avpkt) ∧
    (∀ st a st', step cfg st a = some st' → st.in_queue.length < st'.in_queue.length →
      ∃ avpkt in_buffer, st.caller = CallerPc.submit avpkt in_buffer ∧
        st.decode_status.rank < DECODE_THREAD_GOT_EOS.rank ∧
        st.in_queue.length < cfg.DECODE_QUEUE_SIZE ∧
        st'.in_queue = st.in_queue ++ [in_buffer]) := by
  refine ⟨?_, ?_, ?_, ?_⟩
  · intro as st hr
    exact reachable_invariant cfg (fun s => s.in_queue.length ≤ cfg.DECODE_QUEUE_SIZE)
      (fun s a s' hp hs => step_queue_bound cfg s a s' hp hs) as (opened avctx) st
      (Nat.zero_le _) hr
  · intro st avpkt in_buffer alloc out hc hrank hfull
    have : ¬ st.in_queue.length < cfg.DECODE_QUEUE_SIZE := by omega
    simp [step, caller_step, hc, yami_dec_frame_submit, hrank, this]
  · intro st avpkt in_buffer alloc out hc hrank hroom
    simp [step, caller_step, hc, yami_dec_frame_submit, hrank, hroom]
  · intro st a st' hs hlen
    exact step_queue_grows cfg st a st' hs hlen

/-- Witness for C2: with a capacity of one, the sample schedule reaches a state
with a full queue in which the submission step of the second call retries. -/
theorem C2_queue_bounded_witness :
    ∃ st, run cfg1 session0 sched_full_queue = some st ∧
      st.caller = CallerPc.submit pkt_b (mk_in_buffer pkt_b) ∧
      st.decode_status = DECODE_THREAD_RUNING ∧
      st.in_queue.length = cfg1.DECODE_QUEUE_SIZE ∧
      st.in_queue.length ≤ cfg1.DECODE_QUEUE_SIZE ∧
      step cfg1 st caller_no_output = some st :=
  ⟨_, rfl, rfl, rfl, rfl,
    (C2_queue_bounded cfg1 (avctx_h264 1 25)).1 sched_full_queue _ rfl,
    (C2_queue_bounded cfg1 (avctx_h264 1 25)).2.1 _ pkt_b (mk_in_buffer pkt_b) true none rfl
      (by decide) (by decide)⟩

/-! ### The worker lifecycle (C5) -/

theorem step_worker_inv (cfg : Config) (st : Session) (a : Action) (st' : Session)
    (h : WorkerInv st) (hs : step cfg st a = some st') : WorkerInv st' := by
  obtain ⟨h1, h2⟩ := h
  unfold WorkerInv
  cases a <;>
    simp only [step, caller_step, yami_dec_frame_entry, yami_dec_frame_submit,
      yami_dec_frame_status_update, yami_dec_frame_get_output, yami_dec_frame_poll_output,
      yami_dec_close_iter, yami_dec_close_rest, ff_yami_decode_thread,
      ff_yami_decode_thread_head, ff_yami_decode_thread_decode,
      ff_yami_decode_thread_decode_tail, ff_yami_decode_thread_pop,
      ff_yami_decode_thread_exit, ff_yami_recycle_frame] at hs <;>
    (repeat' split at hs) <;>
    (try simp only [Option.some.injEq, reduceCtorEq] at hs) <;>
    (try subst hs) <;>
    (try simp_all)
  · apply List.eq_nil_of_length_eq_zero; omega
  · apply List.eq_nil_of_length_eq_zero; omega
  · rename_i i r x hw
    have hi := index_lt_of_getElem? _ _ _ hw
    rw [List.length_eraseIdx]
    simp only [hi, if_true]
    omega

/-- A step that adds a worker is the status update of a call that finds the
register at `NOT_INIT` or `EXIT` and carries data; it sets `RUNING`. -/
theorem step_spawn (cfg : Config) (st : Session) (a : Action) (st' : Session)
    (hs : step cfg st a = some st') (hlen : st.workers.length < st'.workers.length) :
    ∃ avpkt, st.caller = CallerPc.status_update avpkt ∧
      (∃ alloc out, a = Action.caller alloc out) ∧
      (st.decode_status = DECODE_THREAD_NOT_INIT ∨ st.decode_status = DECODE_THREAD_EXIT) ∧
      avpkt.has_data = true ∧
      st'.decode_status = DECODE_THREAD_RUNING ∧
      st'.workers = st.workers ++ [WorkerPc.head] := by
  cases a <;>
    simp only [step, caller_step, yami_dec_frame_entry, yami_dec_frame_submit,
      yami_dec_frame_status_update, yami_dec_frame_get_output, yami_dec_frame_poll_output,
      yami_dec_close_iter, yami_dec_close_rest, ff_yami_decode_thread,
      ff_yami_decode_thread_head, ff_yami_decode_thread_decode,
      ff_yami_decode_thread_decode_tail, ff_yami_decode_thread_pop,
      ff_yami_decode_thread_exit, ff_yami_recycle_frame] at hs <;>
    (repeat' split at hs) <;>
    (try simp only [Option.some.injEq, reduceCtorEq] at hs) <;>
    (try subst hs) <;>
    (try simp_all)
  · rename_i i r x hw
    have := List.length_eraseIdx_le st.workers i
    omega

/-- A step that removes a worker is that worker's last action, and it sets `EXIT`. -/
theorem step_exit (cfg : Config) (st : Session) (a : Action) (st' : Session)
    (hs : step cfg st a = some st') (hlen : st'.workers.length < st.workers.length) :
    ∃ i r, a = Action.worker i r ∧ st.workers[i]? = some WorkerPc.exiting ∧
      st'.decode_status = DECODE_THREAD_EXIT ∧
      st'.workers = st.workers.eraseIdx i := by
  cases a <;>
    simp only [step, caller_step, yami_dec_frame_entry, yami_dec_frame_submit,
      yami_dec_frame_status_update, yami_dec_frame_get_output, yami_dec_frame_poll_output,
      yami_dec_close_iter, yami_dec_close_rest, ff_yami_decode_thread,
      ff_yami_decode_thread_head, ff_yami_decode_thread_decode,
      ff_yami_decode_thread_decode_tail, ff_yami_decode_thread_pop,
      ff_yami_decode_thread_exit, ff_yami_recycle_frame] at hs <;>
    (repeat' split at hs) <;>
    (try simp only [Option.some.injEq, reduceCtorEq] at hs) <;>
    (try subst hs) <;>
    (try simp_all)

theorem worker_inv_opened (avctx : AVCodecContext) : WorkerInv (opened avctx) := by
  constructor
  · exact Nat.zero_le 1
  · intro h; cases h

/-- Claim C5: a step that adds a worker is the status update of a call that
finds the register at `NOT_INIT` or `EXIT` and carries data, and it sets the
register to `RUNING`; a step that removes a worker is that worker's last
action and sets the register to `EXIT`, and a worker that has left its loop
always takes that step; in every state reachable from an opened session at
most one worker is alive, and a live worker means the register is `RUNING` or
`GOT_EOS`. -/
theorem C5_single_worker (cfg : Config) (avctx : AVCodecContext) :
    (∀ st a st', step cfg st a = some st' → st.workers.length < st'.workers.length →
      ∃ avpkt, st.caller = CallerPc.status_update avpkt ∧
        (∃ alloc out, a = Action.caller alloc out) ∧
        (st.decode_status = DECODE_THREAD_NOT_INIT ∨ st.decode_status = DECODE_THREAD_EXIT) ∧
        avpkt.has_data = true ∧
        st'.decode_status = DECODE_THREAD_RUNING ∧
        st'.workers = st.workers ++ [WorkerPc.head]) ∧
    (∀ st a st', step cfg st a = some st' → st'.workers.length < st.workers.length →
      ∃ i r, a = Action.worker i r ∧ st.workers[i]? = some WorkerPc.exiting ∧
        st'.decode_status = DECODE_THREAD_EXIT ∧
        st'.workers = st.workers.eraseIdx i) ∧
    (∀ st i r, st.workers[i]? = some WorkerPc.exiting →
      ∃ st', step cfg st (Action.worker i r) = some st' ∧
        st'.decode_status = DECODE_THREAD_EXIT ∧ st'.workers = st.workers.eraseIdx i) ∧
    (∀ as st, run cfg (opened avctx) as = some st →
      st.workers.length ≤ 1 ∧
      (st.workers ≠ [] →
        st.decode_status = DECODE_THREAD_RUNING ∨ st.decode_status = DECODE_THREAD_GOT_EOS)) := by
  refine ⟨?_, ?_, ?_, ?_⟩
  · intro st a st' hs hlen
    exact step_spawn cfg st a st' hs hlen
  · intro st a st' hs hlen
    exact step_exit cfg st a st' hs hlen
  · intro st i r hw
    simp [step, ff_yami_decode_thread, hw, ff_yami_decode_thread_exit]
  · intro as st hr
    have hinv : WorkerInv st :=
      reachable_invariant cfg WorkerInv (fun s a s' hp hs => step_worker_inv cfg s a s' hp hs)
        as (opened avctx) st (worker_inv_opened avctx) hr
    refine ⟨hinv.1, fun hne => hinv.2 ?_⟩
    have h1 := hinv.1
    have : st.workers.length ≠ 0 := fun h0 => hne (List.eq_nil_of_length_eq_zero h0)
    omega

/-- Witness for C5: after the first call of the sample schedule exactly one
worker is alive and the register is `RUNING`. -/
theorem C5_single_worker_witness :
    ∃ st, run cfg8 session0 sched_first_call = some st ∧
      st.workers = [WorkerPc.head] ∧
      st.workers.length ≤ 1 ∧
      (st.workers ≠ [] →
        st.decode_status = DECODE_THREAD_RUNING ∨ st.decode_status = DECODE_THREAD_GOT_EOS) :=
  ⟨_, rfl, rfl, (C5_single_worker cfg8 (avctx_h264 1 25)).2.2.2 sched_first_call _ rfl⟩

/-! ### A worker iteration with a format change (C6) -/

/-- Claim C6: a worker iteration on a queue with front buffer `b`, in which the
first `decode()` returns `DECODE_FORMAT_CHANGE`, `getFormatInfo()` returns the
format `f` and the second `decode()` returns a non-negative status, publishes
the width and height of `f`, passes `b` to `decode()` twice, increases the
decoded count by one and removes exactly `b` from the front of the queue. -/
theorem C6_format_change_iteration (cfg : Config) (st : Session) (i : Nat)
    (b : VideoDecodeBuffer) (rest : List VideoDecodeBuffer) (r0 r r2 : DecoderReply)
    (f : VideoFormatInfo)
    (hne : cfg.DECODE_SUCCESS ≠ cfg.DECODE_FORMAT_CHANGE)
    (hw : st.workers[i]? = some WorkerPc.head)
    (hq : st.in_queue = b :: rest)
    (h1 : r.first = cfg.DECODE_FORMAT_CHANGE)
    (hf : r.info_change = some f)
    (h2 : 0 ≤ r.second) :
    ∃ st', run cfg st [Action.worker i r0, Action.worker i r, Action.worker i r2] = some st' ∧
      st'.avctx.width = f.width ∧ st'.avctx.height = f.height ∧
      st'.format_info = some f ∧
      st'.trace = st.trace ++ [b, b] ∧
      st'.decode_count_yami = st.decode_count_yami + 1 ∧
      st'.in_queue = rest ∧
      st'.workers[i]? = some WorkerPc.head := by
  have hi : i < st.workers.length := by
    rcases Nat.lt_or_ge i st.workers.length with h | h
    · exact h
    · rw [List.getElem?_eq_none h] at hw; cases hw
  have hne' : ¬ cfg.DECODE_FORMAT_CHANGE = cfg.DECODE_SUCCESS := fun e => hne e.symm
  have h2' : ¬ r.second < 0 := by omega
  simp [run, step, ff_yami_decode_thread, ff_yami_decode_thread_head,
    ff_yami_decode_thread_decode, ff_yami_decode_thread_decode_tail, ff_yami_decode_thread_pop,
    hw, hq, h1, hf, hne',
    h2', hi, List.getElem?_set]

/-- Witness for C6: the iteration on the sample session with a format change to
1280x720. -/
theorem C6_format_change_iteration_witness :
    ∃ st', run cfg8 session1
        [Action.worker 0 reply_ok, Action.worker 0 reply_change, Action.worker 0 reply_ok]
        = some st' ∧
      st'.avctx.width = 1280 ∧ st'.avctx.height = 720 ∧
      st'.format_info = some { width := 1280, height := 720 } ∧
      st'.trace = session1.trace ++ [mk_in_buffer pkt_a, mk_in_buffer pkt_a] ∧
      st'.decode_count_yami = session1.decode_count_yami + 1 ∧
      st'.in_queue = [] ∧
      st'.workers[0]? = some WorkerPc.head :=
  C6_format_change_iteration cfg8 session1 0 (mk_in_buffer pkt_a) [] reply_ok reply_change
    reply_ok { width := 1280, height := 720 } (by decide) rfl rfl rfl rfl (by decide)

/-! ### Submission of a packet without data (C3) -/

theorem mk_in_buffer_no_data (avpkt : AVPacket) (he : avpkt.has_data = false) :
    (mk_in_buffer avpkt).data = none := by
  unfold AVPacket.has_data at he
  unfold mk_in_buffer
  cases hd : avpkt.data with
  | none => rfl
  | some d =>
    simp [hd] at he
    simp [he]

/-- Claim C3 (amended): for a packet without data the queue entry has a null
data pointer.  Its submission step leaves the queue unchanged when the
register is `GOT_EOS` or `EXIT`, appends that entry when the register is
`NOT_INIT` or `RUNING` and the queue is below capacity, and retries when the
queue is full.  The status update that follows changes neither the queue nor
the workers and flips the register to `GOT_EOS` exactly when it was `RUNING`. -/
theorem C3_eos_packet_submission (cfg : Config) (st : Session) (avpkt : AVPacket)
    (alloc : Bool) (out : Option VideoFrame) (he : avpkt.has_data = false) :
    (mk_in_buffer avpkt).data = none ∧
    (st.caller = CallerPc.submit avpkt (mk_in_buffer avpkt) →
      (DECODE_THREAD_GOT_EOS.rank ≤ st.decode_status.rank →
        ∃ st', step cfg st (Action.caller alloc out) = some st' ∧
          st'.in_queue = st.in_queue ∧ st'.decode_status = st.decode_status ∧
          st'.workers = st.workers ∧ st'.caller = CallerPc.status_update avpkt) ∧
      (st.decode_status.rank < DECODE_THREAD_GOT_EOS.rank →
        st.in_queue.length < cfg.DECODE_QUEUE_SIZE →
        ∃ st', step cfg st (Action.caller alloc out) = some st' ∧
          st'.in_queue = st.in_queue ++ [mk_in_buffer avpkt] ∧
          st'.decode_status = st.decode_status ∧
          st'.workers = st.workers ∧ st'.caller = CallerPc.status_update avpkt) ∧
      (st.decode_status.rank < DECODE_THREAD_GOT_EOS.rank →
        cfg.DECODE_QUEUE_SIZE ≤ st.in_queue.length →
        step cfg st (Action.caller alloc out) = some st)) ∧
    (st.caller = CallerPc.status_update avpkt →
      ∃ st', step cfg st (Action.caller alloc out) = some st' ∧
        st'.in_queue = st.in_queue ∧ st'.workers = st.workers ∧
        st'.decode_status =
          (if st.decode_status = DECODE_THREAD_RUNING then DECODE_THREAD_GOT_EOS
           else st.decode_status) ∧
        st'.caller = CallerPc.get_output avpkt) := by
  refine ⟨mk_in_buffer_no_data avpkt he, ?_, ?_⟩
  · intro hc
    refine ⟨?_, ?_, ?_⟩
    · intro hrank
      have : ¬ st.decode_status.rank < DECODE_THREAD_GOT_EOS.rank := by omega
      simp [step, caller_step, hc, yami_dec_frame_submit, this]
    · intro hrank hroom
      simp [step, caller_step, hc, yami_dec_frame_submit, hrank, hroom]
    · intro hrank hfull
      have : ¬ st.in_queue.length < cfg.DECODE_QUEUE_SIZE := by omega
      simp [step, caller_step, hc, yami_dec_frame_submit, hrank, this]
  · intro hc
    simp only [step, caller_step, hc, yami_dec_frame_status_update, he]
    cases hst : st.decode_status <;> simp [hst]

/-- Witness for C3: the end-of-stream call on the sample session with a running
worker appends its null-data entry to the queue. -/
theorem C3_eos_packet_submission_witness :
    session_eos.decode_status = DECODE_THREAD_RUNING ∧
    ∃ st', step cfg8 session_eos caller_no_output = some st' ∧
      st'.in_queue = session_eos.in_queue ++ [mk_in_buffer pkt_eos] ∧
      st'.decode_status = session_eos.decode_status ∧
      st'.workers = session_eos.workers ∧ st'.caller = CallerPc.status_update pkt_eos :=
  ⟨rfl, ((C3_eos_packet_submission cfg8 session_eos pkt_eos true none rfl).2.1 rfl).2.1
    (by decide) (by decide)⟩

/-- Counterexample to claim C3 as stated: on the freshly opened sample session
the submission step of an end-of-stream packet appends a buffer with null
data and size zero to the empty queue. -/
theorem C3_counterexample :
    ∃ st, run cfg8 session0 [Action.decode_frame pkt_eos 0 true true, caller_no_output] = some st ∧
      session0.in_queue = [] ∧
      st.in_queue = [{ data := none, size := 0, timeStamp := 0 }] :=
  ⟨_, rfl, rfl, rfl⟩

/-! ### Decode order: the invariant of nominal runs -/

theorem fifo_opened (avctx : AVCodecContext) : Fifo [] (opened avctx) := by
  refine ⟨rfl, ⟨?_, ?_, ?_, ?_⟩, ?_⟩
  · intro h; rcases h with h | h <;> cases h
  · intro p b h; cases h
  · intro p h; cases h
  · intro h; cases h
  · exact Or.inl ⟨rfl, rfl⟩

/-- No packet without data has been seen, so the register is below `GOT_EOS`. -/
theorem status_low_of_all_data (cs : List AVPacket) (status : DecodeThreadStatus) (c : CallerPc)
    (h : CallerOk cs status c) (hall : ∀ q ∈ cs, q.has_data = true) :
    status ≠ DECODE_THREAD_GOT_EOS ∧ status ≠ DECODE_THREAD_EXIT := by
  have key : ¬ (status = DECODE_THREAD_GOT_EOS ∨ status = DECODE_THREAD_EXIT) := by
    intro hs
    obtain ⟨⟨e, he, hd⟩, -, -⟩ := h.1 hs
    have hmem : e ∈ cs := List.mem_of_getLast?_eq_some he
    rw [hall e hmem] at hd
    cases hd
  exact ⟨fun h1 => key (Or.inl h1), fun h2 => key (Or.inr h2)⟩

theorem buffers_append (cs : List AVPacket) (p : AVPacket) :
    buffers (cs ++ [p]) = buffers cs ++ [mk_in_buffer p] := by
  simp [buffers]

theorem core_entry (bufs : List VideoDecodeBuffer) (ws : List WorkerPc)
    (status : DecodeThreadStatus) (trace queue : List VideoDecodeBuffer) (b : VideoDecodeBuffer)
    (h : Core bufs ws status trace queue []) (h1 : status ≠ DECODE_THREAD_GOT_EOS)
    (h2 : status ≠ DECODE_THREAD_EXIT) : Core (bufs ++ [b]) ws status trace queue [b] := by
  unfold Core at h ⊢
  split at h
  · rcases h with ⟨hs, he⟩ | ⟨hs, _⟩
    · exact Or.inl ⟨hs, by rw [← he]; simp⟩
    · exact absurd hs h2
  · exact ⟨h.1, by rw [← h.2]; simp⟩
  · exact ⟨h.1, h.2.1, by rw [← h.2.2]; simp⟩
  · exact ⟨h.1, h.2.1, by rw [← h.2.2]; simp⟩
  · exact absurd h.1 h1
  · exact h.elim

theorem core_push (bufs : List VideoDecodeBuffer) (ws : List WorkerPc)
    (status : DecodeThreadStatus) (trace queue : List VideoDecodeBuffer) (b : VideoDecodeBuffer)
    (h : Core bufs ws status trace queue [b]) (h1 : status ≠ DECODE_THREAD_GOT_EOS)
    (h2 : status ≠ DECODE_THREAD_EXIT) : Core bufs ws status trace (queue ++ [b]) [] := by
  unfold Core at h ⊢
  split at h
  · rcases h with ⟨hs, he⟩ | ⟨hs, _⟩
    · exact Or.inl ⟨hs, by rw [← he]; simp⟩
    · exact absurd hs h2
  · exact ⟨h.1, by rw [← h.2]; simp⟩
  · refine ⟨h.1, ?_, by rw [← h.2.2]; simp⟩
    cases queue with
    | nil => simp at h
    | cons x q => simpa using h.2.1
  · refine ⟨h.1, ?_, ?_⟩
    · cases queue with
      | nil => simp at h
      | cons x q => simpa using h.2.1
    · cases queue with
      | nil => simp at h
      | cons x q => rw [← h.2.2]; simp
  · exact absurd h.1 h1
  · exact h.elim

theorem core_spawn (bufs : List VideoDecodeBuffer) (trace queue hnd : List VideoDecodeBuffer)
    (h : Core bufs [] DECODE_THREAD_NOT_INIT trace queue hnd) :
    Core bufs [WorkerPc.head] DECODE_THREAD_RUNING trace queue hnd := by
  unfold Core at h ⊢
  rcases h with ⟨_, he⟩ | ⟨hs, _⟩
  · exact ⟨Or.inl rfl, he⟩
  · cases hs

theorem core_eos (bufs : List VideoDecodeBuffer) (ws : List WorkerPc)
    (trace queue hnd : List VideoDecodeBuffer)
    (h : Core bufs ws DECODE_THREAD_RUNING trace queue hnd) :
    Core bufs ws DECODE_THREAD_GOT_EOS trace queue hnd := by
  unfold Core at h ⊢
  split at h
  · rcases h with ⟨hs, _⟩ | ⟨hs, _⟩ <;> cases hs
  · exact ⟨Or.inr rfl, h.2⟩
  · exact ⟨Or.inr rfl, h.2⟩
  · exact ⟨Or.inr rfl, h.2⟩
  · cases h.1
  · exact h.elim

theorem core_flush (bufs : List VideoDecodeBuffer) (trace : List VideoDecodeBuffer) (ts : Int)
    (h : Core bufs [WorkerPc.head] DECODE_THREAD_GOT_EOS trace [] []) :
    Core bufs [WorkerPc.exiting] DECODE_THREAD_GOT_EOS (trace ++ [flush_buffer ts]) [] [] := by
  unfold Core at h ⊢
  refine ⟨rfl, ts, ?_, rfl⟩
  rw [← h.2]; simp

theorem core_peek (bufs : List VideoDecodeBuffer) (status : DecodeThreadStatus)
    (trace q hnd : List VideoDecodeBuffer) (b : VideoDecodeBuffer)
    (h : Core bufs [WorkerPc.head] status trace (b :: q) hnd) :
    Core bufs [WorkerPc.got b] status trace (b :: q) hnd := by
  unfold Core at h ⊢
  exact ⟨h.1, rfl, h.2⟩

theorem core_decode (bufs : List VideoDecodeBuffer) (status : DecodeThreadStatus)
    (trace queue hnd : List VideoDecodeBuffer) (b : VideoDecodeBuffer)
    (h : Core bufs [WorkerPc.got b] status trace queue hnd) :
    Core bufs [WorkerPc.decoded b] status (trace ++ [b]) queue hnd := by
  unfold Core at h ⊢
  refine ⟨h.1, h.2.1, ?_⟩
  cases queue with
  | nil => simp at h
  | cons x q =>
    have hx : x = b := by simpa using h.2.1
    rw [← h.2.2, hx]; simp

theorem core_pop (bufs : List VideoDecodeBuffer) (status : DecodeThreadStatus)
    (trace q hnd : List VideoDecodeBuffer) (b x : VideoDecodeBuffer)
    (h : Core bufs [WorkerPc.decoded b] status trace (x :: q) hnd) :
    Core bufs [WorkerPc.head] status trace q hnd := by
  unfold Core at h ⊢
  exact ⟨h.1, by simpa using h.2.2⟩

theorem core_exit (bufs : List VideoDecodeBuffer) (status : DecodeThreadStatus)
    (trace queue hnd : List VideoDecodeBuffer)
    (h : Core bufs [WorkerPc.exiting] status trace queue hnd) :
    Core bufs [] DECODE_THREAD_EXIT trace queue hnd := by
  unfold Core at h ⊢
  exact Or.inr ⟨rfl, h.2⟩

/-- In the relation the worker slot holds at most one worker. -/
theorem core_slot (bufs : List VideoDecodeBuffer) (ws : List WorkerPc)
    (status : DecodeThreadStatus) (trace queue hnd : List VideoDecodeBuffer)
    (h : Core bufs ws status trace queue hnd) (i : Nat) (w : WorkerPc)
    (hw : ws[i]? = some w) : ws = [w] ∧ i = 0 := by
  unfold Core at h
  rcases ws with _ | ⟨w1, _ | ⟨w2, rest⟩⟩
  · simp at hw
  · cases i with
    | zero => simp at hw; simp [hw]
    | succ k => simp at hw
  · cases w1 <;> simp at h

theorem fifo_entry (cfg : Config) (cs : List AVPacket) (st : Session) (p : AVPacket) (gf : Int)
    (h : Fifo cs st) (hc : st.caller = CallerPc.idle) (hall : ∀ q ∈ cs, q.has_data = true) :
    Fifo (cs ++ [p]) (yami_dec_frame_entry cfg st p gf true true) := by
  obtain ⟨hdec, hcall, hcore⟩ := h
  obtain ⟨hs1, hs2⟩ := status_low_of_all_data cs _ _ hcall hall
  have hh : hand st = [] := by simp [hand, hand_of, hc]
  rw [hh] at hcore
  have e : yami_dec_frame_entry cfg st p gf true true =
      { st with got_frame := gf, ret := none,
                duration := if p.duration ≠ 0 then p.duration else st.duration,
                caller := CallerPc.submit p (mk_in_buffer p) } := by
    simp [yami_dec_frame_entry, hdec]
  rw [e]
  refine ⟨hdec, ⟨?_, ?_, ?_, ?_⟩, ?_⟩
  · intro hs
    rcases hs with hs | hs
    · exact absurd hs hs1
    · exact absurd hs hs2
  · intro q b hq
    simp only [CallerPc.submit.injEq] at hq
    simp [hq.1]
  · intro q hq
    cases hq
  · intro hq
    cases hq
  · rw [buffers_append]
    exact core_entry _ _ _ _ _ _ hcore hs1 hs2

theorem fifo_submit (cfg : Config) (cs : List AVPacket) (st : Session) (p : AVPacket)
    (b : VideoDecodeBuffer) (h : Fifo cs st) (hc : st.caller = CallerPc.submit p b) :
    Fifo cs (yami_dec_frame_submit cfg st p b) := by
  obtain ⟨hdec, hcall, hcore⟩ := h
  have hh : hand st = [b] := by simp [hand, hand_of, hc]
  have hlow : st.decode_status ≠ DECODE_THREAD_GOT_EOS ∧ st.decode_status ≠ DECODE_THREAD_EXIT := by
    constructor <;> intro hs
    · have := (hcall.1 (Or.inl hs)).2.1
      rw [hc] at this; simp [hand_of] at this
    · have := (hcall.1 (Or.inr hs)).2.1
      rw [hc] at this; simp [hand_of] at this
  have hrank : st.decode_status.rank < DECODE_THREAD_GOT_EOS.rank := by
    cases hst : st.decode_status <;> simp_all [DecodeThreadStatus.rank]
  have hlast := hcall.2.1 p b hc
  unfold yami_dec_frame_submit
  simp only [hrank, if_true]
  split_ifs with hroom
  · refine ⟨hdec, ⟨?_, ?_, ?_, ?_⟩, ?_⟩
    · intro hs
      rcases hs with hs | hs
      · exact absurd hs hlow.1
      · exact absurd hs hlow.2
    · intro q b' hq; cases hq
    · intro q hq
      simp only [CallerPc.status_update.injEq] at hq
      rw [← hq]; exact hlast
    · intro hq; cases hq
    · rw [hh] at hcore
      exact core_push _ _ _ _ _ _ hcore hlow.1 hlow.2
  · exact ⟨hdec, hcall, hcore⟩

/-- The invariant only reads six fields of the session. -/
theorem fifo_of_fields (cs : List AVPacket) (st st' : Session) (h : Fifo cs st)
    (hd : st'.decoder = st.decoder) (hs : st'.decode_status = st.decode_status)
    (hw : st'.workers = st.workers) (ht : st'.trace = st.trace)
    (hq : st'.in_queue = st.in_queue) (hc : st'.caller = st.caller) : Fifo cs st' := by
  unfold Fifo hand at h ⊢
  rw [hd, hs, hw, ht, hq, hc]
  exact h

/-- The caller moves between program points past the status update. -/
theorem fifo_quiet (cs : List AVPacket) (st st' : Session) (h : Fifo cs st)
    (hh : hand_of st.caller = [])
    (hd : st'.decoder = st.decoder) (hs : st'.decode_status = st.decode_status)
    (hw : st'.workers = st.workers) (ht : st'.trace = st.trace)
    (hq : st'.in_queue = st.in_queue)
    (hh' : hand_of st'.caller = []) (hsu : ∀ p, st'.caller ≠ CallerPc.status_update p)
    (hsb : ∀ p b, st'.caller ≠ CallerPc.submit p b)
    (hcl : st'.caller ≠ CallerPc.thread_close) : Fifo cs st' := by
  obtain ⟨hdec, hcall, hcore⟩ := h
  unfold Fifo hand at *
  rw [hd, hs, hw, ht, hq, hh']
  rw [hh] at hcore
  refine ⟨hdec, ⟨?_, ?_, ?_, hcl⟩, hcore⟩
  · intro hst
    exact ⟨(hcall.1 hst).1, hh', hsu⟩
  · intro p b hp; exact absurd hp (hsb p b)
  · intro p hp; exact absurd hp (hsu p)

theorem fifo_status_update (cs : List AVPacket) (st : Session) (p : AVPacket)
    (h : Fifo cs st) (hc : st.caller = CallerPc.status_update p) :
    Fifo cs (yami_dec_frame_status_update st p) := by
  obtain ⟨hdec, hcall, hcore⟩ := h
  have hh : hand st = [] := by simp [hand, hand_of, hc]
  rw [hh] at hcore
  have hlast := hcall.2.2.1 p hc
  have hlow : st.decode_status ≠ DECODE_THREAD_GOT_EOS ∧ st.decode_status ≠ DECODE_THREAD_EXIT := by
    constructor <;> intro hs
    · exact (hcall.1 (Or.inl hs)).2.2 p hc
    · exact (hcall.1 (Or.inr hs)).2.2 p hc
  have hquiet : ∀ (status : DecodeThreadStatus),
      (status = DECODE_THREAD_GOT_EOS ∨ status = DECODE_THREAD_EXIT → p.has_data = false) →
      CallerOk cs status (CallerPc.get_output p) := by
    intro status hst
    refine ⟨fun hs => ⟨⟨p, hlast, hst hs⟩, rfl, fun q hq => (by cases hq)⟩,
      fun q b hq => (by cases hq), fun q hq => (by cases hq), fun hq => (by cases hq)⟩
  cases hst : st.decode_status with
  | DECODE_THREAD_NOT_INIT =>
    rw [hst] at hcore
    have hws : st.workers = [] := by
      rcases hw : st.workers with _ | ⟨w, _ | ⟨w2, rest⟩⟩
      · rfl
      · rw [hw] at hcore; cases w <;> simp [Core] at hcore
      · rw [hw] at hcore; cases w <;> simp [Core] at hcore
    rw [hws] at hcore
    by_cases hdata : p.has_data = true
    · have e : yami_dec_frame_status_update st p =
          { st with decode_status := DECODE_THREAD_RUNING, workers := [WorkerPc.head],
                    caller := CallerPc.get_output p } := by
        simp [yami_dec_frame_status_update, hst, hdata, hws]
      rw [e]
      exact ⟨hdec, hquiet _ (fun hs => by rcases hs with hs | hs <;> cases hs),
        core_spawn _ _ _ _ hcore⟩
    · have e : yami_dec_frame_status_update st p = { st with caller := CallerPc.get_output p } := by
        simp [yami_dec_frame_status_update, hst, hdata]
      rw [e]
      refine ⟨hdec, ?_, ?_⟩
      · show CallerOk cs st.decode_status (CallerPc.get_output p)
        rw [hst]
        exact hquiet _ (fun hs => by rcases hs with hs | hs <;> cases hs)
      · show Core (buffers cs) st.workers st.decode_status st.trace st.in_queue []
        rw [hst, hws]; exact hcore
  | DECODE_THREAD_RUNING =>
    rw [hst] at hcore
    by_cases hdata : p.has_data = true
    · have e : yami_dec_frame_status_update st p = { st with caller := CallerPc.get_output p } := by
        simp [yami_dec_frame_status_update, hst, hdata]
      rw [e]
      refine ⟨hdec, ?_, ?_⟩
      · show CallerOk cs st.decode_status (CallerPc.get_output p)
        rw [hst]
        exact hquiet _ (fun hs => by rcases hs with hs | hs <;> cases hs)
      · show Core (buffers cs) st.workers st.decode_status st.trace st.in_queue []
        rw [hst]; exact hcore
    · have hdata' : p.has_data = false := by simpa using hdata
      have e : yami_dec_frame_status_update st p =
          { st with decode_status := DECODE_THREAD_GOT_EOS,
                    caller := CallerPc.get_output p } := by
        simp [yami_dec_frame_status_update, hst, hdata']
      rw [e]
      exact ⟨hdec, hquiet _ (fun _ => hdata'), core_eos _ _ _ _ _ hcore⟩
  | DECODE_THREAD_GOT_EOS => exact absurd hst hlow.1
  | DECODE_THREAD_EXIT => exact absurd hst hlow.2

theorem fifo_get_output (cfg : Config) (cs : List AVPacket) (st : Session) (p : AVPacket)
    (alloc : Bool) (h : Fifo cs st) (hc : st.caller = CallerPc.get_output p) :
    Fifo cs (yami_dec_frame_get_output cfg st p alloc) := by
  have hh : hand_of st.caller = [] := by simp [hand_of, hc]
  unfold yami_dec_frame_get_output
  split
  · split_ifs
    · exact h
    · exact fifo_quiet cs st _ h hh rfl rfl rfl rfl rfl rfl (fun q hq => by cases hq)
        (fun q b hq => by cases hq) (fun hq => by cases hq)
    · exact fifo_quiet cs st _ h hh rfl rfl rfl rfl rfl rfl (fun q hq => by cases hq)
        (fun q b hq => by cases hq) (fun hq => by cases hq)
  · split_ifs
    · exact fifo_quiet cs st _ h hh rfl rfl rfl rfl rfl rfl (fun q hq => by cases hq)
        (fun q b hq => by cases hq) (fun hq => by cases hq)
    · exact fifo_quiet cs st _ h hh rfl rfl rfl rfl rfl rfl (fun q hq => by cases hq)
        (fun q b hq => by cases hq) (fun hq => by cases hq)

theorem fifo_poll_output (cs : List AVPacket) (st : Session) (p : AVPacket)
    (out : Option VideoFrame) (h : Fifo cs st) (hc : st.caller = CallerPc.poll_output p) :
    Fifo cs (yami_dec_frame_poll_output st p out) := by
  have hh : hand_of st.caller = [] := by simp [hand_of, hc]
  unfold yami_dec_frame_poll_output
  split_ifs
  · split
    · exact fifo_quiet cs st _ h hh rfl rfl rfl rfl rfl rfl (fun q hq => by cases hq)
        (fun q b hq => by cases hq) (fun hq => by cases hq)
    · exact fifo_quiet cs st _ h hh rfl rfl rfl rfl rfl rfl (fun q hq => by cases hq)
        (fun q b hq => by cases hq) (fun hq => by cases hq)
  · exact h

/-- The effect of the decode step when the decoder accepts the buffer. -/
theorem worker_decode_accepts (cfg : Config) (st : Session) (i : Nat) (b : VideoDecodeBuffer)
    (r : DecoderReply) (h0 : 0 ≤ cfg.DECODE_SUCCESS)
    (hne : cfg.DECODE_SUCCESS ≠ cfg.DECODE_FORMAT_CHANGE) (hr : r.accepts cfg) :
    ∃ st', ff_yami_decode_thread_decode cfg st i b r = some st' ∧
      st'.decoder = st.decoder ∧ st'.decode_status = st.decode_status ∧
      st'.workers = st.workers.set i (WorkerPc.decoded b) ∧
      st'.trace = st.trace ++ [b] ∧ st'.in_queue = st.in_queue ∧
      st'.caller = st.caller ∧ st'.format_info.isSome = true ∧
      st'.decode_count_yami = st.decode_count_yami ∧ st'.images = st.images := by
  obtain ⟨h1, h2⟩ := hr
  have h3 : ¬ cfg.DECODE_SUCCESS < 0 := by omega
  obtain ⟨f, hf⟩ := Option.isSome_iff_exists.mp h2
  cases hfi : st.format_info with
  | none =>
    refine ⟨_, by simp [ff_yami_decode_thread_decode, h1, hfi, hf]; rfl, ?_⟩
    simp [ff_yami_decode_thread_decode_tail, h1, hne, h3]
  | some g =>
    refine ⟨_, by simp [ff_yami_decode_thread_decode, h1, hfi]; rfl, ?_⟩
    simp [ff_yami_decode_thread_decode_tail, h1, hne, h3, hfi]

theorem fifo_worker_step (cfg : Config) (cs : List AVPacket) (st st' : Session) (i : Nat)
    (r : DecoderReply) (h0 : 0 ≤ cfg.DECODE_SUCCESS)
    (hne : cfg.DECODE_SUCCESS ≠ cfg.DECODE_FORMAT_CHANGE) (hr : r.accepts cfg)
    (h : Fifo cs st) (hs : ff_yami_decode_thread cfg st i r = some st') : Fifo cs st' := by
  obtain ⟨hdec, hcall, hcore⟩ := h
  unfold ff_yami_decode_thread at hs
  split at hs
  · cases hs
  · -- the worker looks at the queue
    rename_i hw
    obtain ⟨hws, hi⟩ := core_slot _ _ _ _ _ _ hcore i _ hw
    subst hi
    simp only [Option.some.injEq] at hs
    subst hs
    rw [hws] at hcore
    unfold ff_yami_decode_thread_head
    cases hq : st.in_queue with
    | nil =>
      simp only
      split_ifs with hst
      · have hh : hand st = [] := (hcall.1 (Or.inl hst)).2.1
        rw [hh, hq, hst] at hcore
        refine ⟨hdec, hcall, ?_⟩
        show Core (buffers cs) (st.workers.set 0 WorkerPc.exiting) st.decode_status
          (st.trace ++ [flush_buffer r.flush_ts]) [] (hand st)
        rw [hws, hh, hst]
        exact core_flush _ _ _ hcore
      · refine ⟨hdec, hcall, ?_⟩
        show Core (buffers cs) st.workers st.decode_status st.trace st.in_queue (hand st)
        rw [hws]; exact hcore
    | cons b q =>
      simp only
      refine ⟨hdec, hcall, ?_⟩
      show Core (buffers cs) (st.workers.set 0 (WorkerPc.got b)) st.decode_status st.trace
        (b :: q) (hand st)
      rw [hws]
      rw [hq] at hcore
      exact core_peek _ _ _ _ _ _ hcore
  · -- the worker decodes the buffer it holds
    rename_i b hw
    obtain ⟨hws, hi⟩ := core_slot _ _ _ _ _ _ hcore i _ hw
    subst hi
    obtain ⟨st2, he, hd2, hs2, hw2, ht2, hq2, hc2, -, -, -⟩ :=
      worker_decode_accepts cfg st 0 b r h0 hne hr
    rw [he] at hs
    simp only [Option.some.injEq] at hs
    subst hs
    unfold Fifo hand
    rw [hd2, hs2, hw2, ht2, hq2, hc2, hws]
    rw [hws] at hcore
    exact ⟨hdec, hcall, core_decode _ _ _ _ _ _ hcore⟩
  · -- the worker removes the buffer it decoded
    rename_i b hw
    obtain ⟨hws, hi⟩ := core_slot _ _ _ _ _ _ hcore i _ hw
    subst hi
    rw [hws] at hcore
    unfold ff_yami_decode_thread_pop at hs
    cases hq : st.in_queue with
    | nil => rw [hq] at hcore; simp [Core] at hcore
    | cons x q =>
      rw [hq] at hs hcore
      simp only [Option.some.injEq] at hs
      subst hs
      refine ⟨hdec, hcall, ?_⟩
      show Core (buffers cs) (st.workers.set 0 WorkerPc.head) st.decode_status st.trace q (hand st)
      rw [hws]
      exact core_pop _ _ _ _ _ _ _ hcore
  · -- the worker's last action
    rename_i hw
    obtain ⟨hws, hi⟩ := core_slot _ _ _ _ _ _ hcore i _ hw
    subst hi
    simp only [Option.some.injEq] at hs
    subst hs
    rw [hws] at hcore
    have hst : st.decode_status = DECODE_THREAD_GOT_EOS := by
      simpa [Core] using hcore.1
    obtain ⟨hlast, hh, hsu⟩ := hcall.1 (Or.inl hst)
    refine ⟨hdec, ⟨fun _ => ⟨hlast, hh, hsu⟩, hcall.2.1, hcall.2.2.1, hcall.2.2.2⟩, ?_⟩
    show Core (buffers cs) (st.workers.eraseIdx 0) DECODE_THREAD_EXIT st.trace st.in_queue (hand st)
    rw [hws]
    exact core_exit _ _ _ _ _ hcore

theorem fifo_recycle (cs : List AVPacket) (st st' : Session) (i : Nat)
    (h : Fifo cs st) (hs : ff_yami_recycle_frame st i = some st') : Fifo cs st' := by
  unfold ff_yami_recycle_frame at hs
  split at hs
  · cases hs
  · split_ifs at hs
    · simp only [Option.some.injEq] at hs; subst hs; exact h
    · simp only [Option.some.injEq] at hs; subst hs
      exact fifo_of_fields cs st _ h rfl rfl rfl rfl rfl rfl

theorem calls_cons (a : Action) (rest : List Action) :
    calls (a :: rest) = calls [a] ++ calls rest := by
  cases a <;> simp [calls]

theorem calls_append (as bs : List Action) : calls (as ++ bs) = calls as ++ calls bs := by
  induction as with
  | nil => simp [calls]
  | cons a rest ih =>
    rw [List.cons_append, calls_cons, calls_cons a rest, ih, List.append_assoc]

/-- One nominal step keeps the invariant; a new call may only be made while
every earlier packet carried data. -/
theorem fifo_step (cfg : Config) (cs : List AVPacket) (st st' : Session) (a : Action)
    (h0 : 0 ≤ cfg.DECODE_SUCCESS) (hne : cfg.DECODE_SUCCESS ≠ cfg.DECODE_FORMAT_CHANGE)
    (h : Fifo cs st) (hn : Nominal cfg a)
    (hall : calls [a] ≠ [] → ∀ q ∈ cs, q.has_data = true)
    (hs : step cfg st a = some st') : Fifo (cs ++ calls [a]) st' := by
  cases a with
  | decode_frame p gf a1 a2 =>
    obtain ⟨ha1, ha2⟩ := hn
    subst ha1; subst ha2
    simp only [step] at hs
    split_ifs at hs with hc
    simp only [Option.some.injEq] at hs
    subst hs
    exact fifo_entry cfg cs st p gf h hc (hall (by simp [calls]))
  | close => exact hn.elim
  | caller alloc out =>
    simp only [calls, List.append_nil]
    simp only [step, caller_step] at hs
    split at hs
    · cases hs
    · rename_i p b hc
      simp only [Option.some.injEq] at hs; subst hs
      exact fifo_submit cfg cs st p b h hc
    · rename_i p hc
      simp only [Option.some.injEq] at hs; subst hs
      exact fifo_status_update cs st p h hc
    · rename_i p hc
      simp only [Option.some.injEq] at hs; subst hs
      exact fifo_get_output cfg cs st p alloc h hc
    · rename_i p hc
      simp only [Option.some.injEq] at hs; subst hs
      exact fifo_poll_output cs st p out h hc
    · rename_i hc
      exact absurd hc h.2.1.2.2.2
  | worker i r =>
    simp only [calls, List.append_nil]
    exact fifo_worker_step cfg cs st st' i r h0 hne hn h hs
  | recycle i =>
    simp only [calls, List.append_nil]
    exact fifo_recycle cs st st' i h hs

/-- The invariant holds along every nominal schedule in which the only packet
without data, if any, is the last one. -/
theorem fifo_run (cfg : Config) (h0 : 0 ≤ cfg.DECODE_SUCCESS)
    (hne : cfg.DECODE_SUCCESS ≠ cfg.DECODE_FORMAT_CHANGE) :
    ∀ (as : List Action) (cs : List AVPacket) (st st' : Session), Fifo cs st →
      (∀ a ∈ as, Nominal cfg a) → EosLast (cs ++ calls as) → run cfg st as = some st' →
      Fifo (cs ++ calls as) st' := by
  intro as
  induction as with
  | nil =>
    intro cs st st' h _ _ hr
    simp only [run_nil, Option.some.injEq] at hr
    subst hr
    simpa [calls] using h
  | cons a rest ih =>
    intro cs st st' h hn hlast hr
    rw [run_cons] at hr
    cases hs : step cfg st a with
    | none => rw [hs] at hr; simp at hr
    | some st1 =>
      rw [hs] at hr
      simp only [Option.some_bind] at hr
      rw [calls_cons] at hlast ⊢
      have hall : calls [a] ≠ [] → ∀ q ∈ cs, q.has_data = true := by
        intro hne' q hq
        apply hlast
        have hne2 : calls [a] ++ calls rest ≠ [] := by
          intro hnil
          exact hne' (List.append_eq_nil.mp hnil).1
        rw [List.dropLast_append_of_ne_nil cs hne2]
        exact List.mem_append_left _ hq
      have h1 := fifo_step cfg cs st st1 a h0 hne h (hn a (List.mem_cons_self _ _)) hall hs
      rw [← List.append_assoc] at hlast ⊢
      exact ih (cs ++ calls [a]) st1 st' h1 (fun b hb => hn b (List.mem_cons_of_mem _ hb)) hlast hr

/-- Before the flush the trace followed by the waiting buffers is the submitted sequence. -/
theorem fifo_pending (cs : List AVPacket) (st : Session) (h : Fifo cs st)
    (h2 : st.decode_status ≠ DECODE_THREAD_EXIT) (h3 : st.workers ≠ [WorkerPc.exiting]) :
    st.trace ++ pending st ++ hand st = buffers cs := by
  obtain ⟨-, -, hcore⟩ := h
  unfold Core at hcore
  unfold pending
  split at hcore
  · rename_i hw
    rw [hw]
    rcases hcore with ⟨-, he⟩ | ⟨hs, -⟩
    · exact he
    · exact absurd hs h2
  · rename_i hw; rw [hw]; exact hcore.2
  · rename_i b hw; rw [hw]; exact hcore.2.2
  · rename_i b hw; rw [hw]; exact hcore.2.2
  · rename_i hw; exact absurd hw h3
  · exact hcore.elim

/-- After the flush the trace is the submitted sequence followed by one flush
buffer, and the queue is empty. -/
theorem fifo_flushed (cs : List AVPacket) (st : Session) (h : Fifo cs st)
    (hs : st.decode_status = DECODE_THREAD_EXIT ∨ st.workers = [WorkerPc.exiting]) :
    ∃ ts, st.trace = buffers cs ++ [flush_buffer ts] ∧ st.in_queue = [] := by
  obtain ⟨-, -, hcore⟩ := h
  unfold Core at hcore
  split at hcore
  · rename_i hw
    rcases hcore with ⟨h1, -⟩ | ⟨-, hf⟩
    · rcases hs with hs | hs
      · rw [hs] at h1; cases h1
      · rw [hw] at hs; cases hs
    · exact hf
  · rename_i hw
    rcases hs with hs | hs
    · rcases hcore.1 with h1 | h1 <;> (rw [hs] at h1; cases h1)
    · rw [hw] at hs; cases hs
  · rename_i b hw
    rcases hs with hs | hs
    · rcases hcore.1 with h1 | h1 <;> (rw [hs] at h1; cases h1)
    · rw [hw] at hs; cases hs
  · rename_i b hw
    rcases hs with hs | hs
    · rcases hcore.1 with h1 | h1 <;> (rw [hs] at h1; cases h1)
    · rw [hw] at hs; cases hs
  · exact hcore.2
  · exact hcore.elim

/-- A worker that has left its loop means the register is `GOT_EOS`. -/
theorem fifo_exiting (cs : List AVPacket) (st : Session) (h : Fifo cs st)
    (hw : st.workers = [WorkerPc.exiting]) : st.decode_status = DECODE_THREAD_GOT_EOS := by
  obtain ⟨-, -, hcore⟩ := h
  rw [hw] at hcore
  exact hcore.1

theorem mk_in_buffer_data (p : AVPacket) (hp : p.has_data = true) :
    (mk_in_buffer p).data.isNone = false := by
  unfold AVPacket.has_data at hp
  unfold mk_in_buffer
  cases hd : p.data with
  | none => simp [hd] at hp
  | some d => simp [hd] at hp; simp [hp]

theorem filter_null_buffers (ps : List AVPacket) (h : ∀ p ∈ ps, p.has_data = true) :
    (buffers ps).filter (fun b => b.data.isNone) = [] := by
  simp only [List.filter_eq_nil_iff, buffers, List.mem_map]
  rintro b ⟨p, hp, rfl⟩
  simp [mk_in_buffer_data p (h p hp)]

/-! ### Decode order: schedules that run a stream to its end -/

theorem has_data_isSome (p : AVPacket) (hp : p.has_data = true) : p.data.isSome = true := by
  unfold AVPacket.has_data at hp
  simp only [Bool.and_eq_true] at hp
  exact hp.1

theorem accepting_reply_accepts (cfg : Config) : (accepting_reply cfg).accepts cfg :=
  ⟨rfl, rfl⟩

/-- Running the schedule of one data packet from a ready session: the packet
is decoded and the session is ready again. -/
theorem run_sched_packet (cfg : Config) (h0 : 0 ≤ cfg.DECODE_SUCCESS)
    (hne : cfg.DECODE_SUCCESS ≠ cfg.DECODE_FORMAT_CHANGE) (hcap : 0 < cfg.DECODE_QUEUE_SIZE)
    (st : Session) (p : AVPacket) (hp : p.has_data = true) (hready : Ready st) :
    ∃ st', run cfg st (sched_packet cfg p) = some st' ∧ Ready st' ∧
      st'.workers = [WorkerPc.head] ∧ st'.decode_status = DECODE_THREAD_RUNING ∧
      st'.trace = st.trace ++ [mk_in_buffer p] := by
  obtain ⟨hc, hd, hq, hcase⟩ := hready
  have hsome := has_data_isSome p hp
  have h3 : ¬ cfg.DECODE_SUCCESS < 0 := by omega
  rcases hcase with ⟨hw, hs⟩ | ⟨hw, hs, hf⟩
  · cases hfi : st.format_info with
    | none =>
      simp [sched_packet, run, step, caller_step, yami_dec_frame_entry, yami_dec_frame_submit,
        yami_dec_frame_status_update, ff_yami_decode_thread, ff_yami_decode_thread_head,
        ff_yami_decode_thread_decode, ff_yami_decode_thread_decode_tail,
        ff_yami_decode_thread_pop, yami_dec_frame_get_output, yami_dec_frame_poll_output, hc, hd,
        hq, hw, hs, hp, hsome, hcap, accepting_reply, DecodeThreadStatus.rank, hne, h3, hfi,
        Ready]
    | some f =>
      simp [sched_packet, run, step, caller_step, yami_dec_frame_entry, yami_dec_frame_submit,
        yami_dec_frame_status_update, ff_yami_decode_thread, ff_yami_decode_thread_head,
        ff_yami_decode_thread_decode, ff_yami_decode_thread_decode_tail,
        ff_yami_decode_thread_pop, yami_dec_frame_get_output, yami_dec_frame_poll_output, hc, hd,
        hq, hw, hs, hp, hsome, hcap, accepting_reply, DecodeThreadStatus.rank, hne, h3, hfi,
        Ready]
  · obtain ⟨f, hfi⟩ := Option.isSome_iff_exists.mp hf
    simp [sched_packet, run, step, caller_step, yami_dec_frame_entry, yami_dec_frame_submit,
      yami_dec_frame_status_update, ff_yami_decode_thread, ff_yami_decode_thread_head,
      ff_yami_decode_thread_decode, ff_yami_decode_thread_decode_tail, ff_yami_decode_thread_pop,
      yami_dec_frame_get_output, yami_dec_frame_poll_output, hc, hd, hq, hw, hs, hp, hsome, hcap,
      accepting_reply, DecodeThreadStatus.rank, hne, h3, hfi, Ready]

theorem run_sched_packets (cfg : Config) (h0 : 0 ≤ cfg.DECODE_SUCCESS)
    (hne : cfg.DECODE_SUCCESS ≠ cfg.DECODE_FORMAT_CHANGE) (hcap : 0 < cfg.DECODE_QUEUE_SIZE) :
    ∀ (ps : List AVPacket) (st : Session), (∀ p ∈ ps, p.has_data = true) → Ready st →
      ∃ st', run cfg st (sched_packets cfg ps) = some st' ∧ Ready st' ∧
        (ps ≠ [] → st'.workers = [WorkerPc.head] ∧ st'.decode_status = DECODE_THREAD_RUNING) ∧
        st'.trace = st.trace ++ buffers ps := by
  intro ps
  induction ps with
  | nil =>
    intro st _ hready
    exact ⟨st, rfl, hready, fun h => absurd rfl h, by simp [buffers]⟩
  | cons p rest ih =>
    intro st hdata hready
    obtain ⟨st1, hr1, hready1, hw1, hs1, ht1⟩ :=
      run_sched_packet cfg h0 hne hcap st p (hdata p (List.mem_cons_self _ _)) hready
    obtain ⟨st2, hr2, hready2, hlive2, ht2⟩ :=
      ih st1 (fun q hq => hdata q (List.mem_cons_of_mem _ hq)) hready1
    refine ⟨st2, ?_, hready2, ?_, ?_⟩
    · simp only [sched_packets, run_append, hr1, Option.some_bind, hr2]
    · intro _
      cases rest with
      | nil =>
        simp only [sched_packets, run_nil, Option.some.injEq] at hr2
        subst hr2
        exact ⟨hw1, hs1⟩
      | cons q rest2 => exact hlive2 (by simp)
    · rw [ht2, ht1]; simp [buffers]

theorem nominal_sched_packets (cfg : Config) (ps : List AVPacket) :
    ∀ a ∈ sched_packets cfg ps, Nominal cfg a := by
  induction ps with
  | nil => intro a ha; simp [sched_packets] at ha
  | cons p rest ih =>
    intro a ha
    simp only [sched_packets, List.mem_append] at ha
    rcases ha with ha | ha
    · simp only [sched_packet, List.mem_cons, List.mem_singleton, List.not_mem_nil,
        or_false] at ha
      rcases ha with ha | ha | ha | ha | ha | ha | ha | ha <;> subst ha <;>
        first
          | exact ⟨rfl, rfl⟩
          | exact trivial
    · exact ih a ha

theorem calls_sched_packets (cfg : Config) (ps : List AVPacket) :
    calls (sched_packets cfg ps) = ps := by
  induction ps with
  | nil => rfl
  | cons p rest ih =>
    simp only [sched_packets, calls_append, ih]
    simp [sched_packet, calls]

theorem nominal_sched_eos (cfg : Config) (e : AVPacket) :
    ∀ a ∈ sched_eos cfg e, Nominal cfg a := by
  intro a ha
  simp only [sched_eos, List.mem_cons, List.mem_singleton, List.not_mem_nil, or_false] at ha
  rcases ha with ha | ha | ha | ha | ha | ha | ha | ha | ha | ha <;> subst ha <;>
    first
      | exact ⟨rfl, rfl⟩
      | exact trivial

theorem calls_sched_eos (cfg : Config) (e : AVPacket) : calls (sched_eos cfg e) = [e] := by
  simp [sched_eos, calls]

/-- Running the end-of-stream schedule on a ready session with a waiting
worker: the queued end-of-stream buffer and then the flush buffer are
decoded, and the register ends at `EXIT`. -/
theorem run_sched_eos (cfg : Config) (h0 : 0 ≤ cfg.DECODE_SUCCESS)
    (hne : cfg.DECODE_SUCCESS ≠ cfg.DECODE_FORMAT_CHANGE) (hcap : 0 < cfg.DECODE_QUEUE_SIZE)
    (st : Session) (e : AVPacket) (he : e.has_data = false) (hready : Ready st)
    (hw : st.workers = [WorkerPc.head]) :
    ∃ st', run cfg st (sched_eos cfg e) = some st' ∧
      st'.decode_status = DECODE_THREAD_EXIT ∧ st'.workers = [] ∧ st'.in_queue = [] ∧
      st'.caller = CallerPc.idle ∧
      st'.trace = st.trace ++ [mk_in_buffer e, flush_buffer 0] := by
  obtain ⟨hc, hd, hq, hcase⟩ := hready
  have h3 : ¬ cfg.DECODE_SUCCESS < 0 := by omega
  rcases hcase with ⟨hw0, -⟩ | ⟨-, hs, hf⟩
  · rw [hw] at hw0; cases hw0
  · obtain ⟨f, hfi⟩ := Option.isSome_iff_exists.mp hf
    simp [sched_eos, run, step, caller_step, yami_dec_frame_entry, yami_dec_frame_submit,
      yami_dec_frame_status_update, ff_yami_decode_thread, ff_yami_decode_thread_head,
      ff_yami_decode_thread_decode, ff_yami_decode_thread_decode_tail, ff_yami_decode_thread_pop,
      ff_yami_decode_thread_exit, yami_dec_frame_get_output, yami_dec_frame_poll_output, hc, hd,
      hq, hw, hs, he, hcap, accepting_reply, DecodeThreadStatus.rank, hne, h3, hfi]

theorem ready_opened (avctx : AVCodecContext) : Ready (opened avctx) :=
  ⟨rfl, rfl, rfl, Or.inl ⟨rfl, rfl⟩⟩

/-! ### Decode order (C1) and end of stream (C4) -/

/-- Claim C1 (amended): on a freshly opened session, along every schedule in
which no allocation fails, the decoder accepts every buffer, the session is
not closed and every submitted packet carries data, the register stays at
`NOT_INIT` or `RUNING`, and the buffers passed to `decode()` followed by the
buffers still waiting (queued and not yet decoded, then the one the caller
holds in the submission loop) are exactly the submitted packets in submission
order; once nothing waits, the decode trace is the submitted sequence.  When
the queue capacity is positive every list of data packets has such a schedule
at whose end all of them have been decoded in order. -/
theorem C1_fifo_from_open (cfg : Config) (avctx : AVCodecContext)
    (h0 : 0 ≤ cfg.DECODE_SUCCESS) (hne : cfg.DECODE_SUCCESS ≠ cfg.DECODE_FORMAT_CHANGE) :
    (∀ as st, (∀ a ∈ as, Nominal cfg a) → (∀ p ∈ calls as, p.has_data = true) →
      run cfg (opened avctx) as = some st →
        (st.decode_status = DECODE_THREAD_NOT_INIT ∨ st.decode_status = DECODE_THREAD_RUNING) ∧
        st.trace ++ pending st ++ hand st = buffers (calls as) ∧
        (pending st = [] → hand st = [] → st.trace = buffers (calls as))) ∧
    (0 < cfg.DECODE_QUEUE_SIZE → ∀ ps, (∀ p ∈ ps, p.has_data = true) →
      ∃ as st, (∀ a ∈ as, Nominal cfg a) ∧ calls as = ps ∧
        run cfg (opened avctx) as = some st ∧
        st.in_queue = [] ∧ st.caller = CallerPc.idle ∧ st.trace = buffers ps) := by
  constructor
  · intro as st hn hdata hr
    have hlast : EosLast ([] ++ calls as) := by
      intro q hq
      exact hdata q (List.mem_of_mem_dropLast hq)
    have hf : Fifo (calls as) st := by
      simpa using fifo_run cfg h0 hne as [] (opened avctx) st (fifo_opened avctx) hn hlast hr
    obtain ⟨hs1, hs2⟩ := status_low_of_all_data (calls as) _ _ hf.2.1 hdata
    have hw : st.workers ≠ [WorkerPc.exiting] := fun hw => hs1 (fifo_exiting _ st hf hw)
    have heq := fifo_pending (calls as) st hf hs2 hw
    refine ⟨?_, heq, ?_⟩
    · cases hst : st.decode_status
      · exact Or.inl rfl
      · exact Or.inr rfl
      · exact absurd hst hs1
      · exact absurd hst hs2
    · intro hp hh
      rw [hp, hh] at heq
      simpa using heq
  · intro hcap ps hdata
    obtain ⟨st, hr, hready, -, ht⟩ :=
      run_sched_packets cfg h0 hne hcap ps (opened avctx) hdata (ready_opened avctx)
    refine ⟨sched_packets cfg ps, st, nominal_sched_packets cfg ps, calls_sched_packets cfg ps,
      hr, hready.2.2.1, hready.1, ?_⟩
    rw [ht]; rfl

/-- Witness for C1: after the first call and one worker round on the sample
session the decode trace is the one submitted buffer. -/
theorem C1_fifo_from_open_witness :
    ∃ st, run cfg8 session0 (sched_first_call ++ sched_worker_round) = some st ∧
      st.trace = [mk_in_buffer pkt_a] ∧
      (st.decode_status = DECODE_THREAD_NOT_INIT ∨ st.decode_status = DECODE_THREAD_RUNING) ∧
      st.trace ++ pending st ++ hand st = buffers [pkt_a] :=
  ⟨_, rfl, rfl,
    ((C1_fifo_from_open cfg8 (avctx_h264 1 25) (by decide) (by decide)).1
      (sched_first_call ++ sched_worker_round) _ (by decide) (by decide) rfl).1,
    ((C1_fifo_from_open cfg8 (avctx_h264 1 25) (by decide) (by decide)).1
      (sched_first_call ++ sched_worker_round) _ (by decide) (by decide) rfl).2.1⟩

/-- Counterexample to claim C1 as stated: the register is `EXIT` after the
stream has ended; a later call with the data packet `pkt_c` passes the
submission loop without queueing its buffer, and although a worker is spawned
again and the decoder accepts every buffer, the buffer is neither in the
queue nor in the decode trace. -/
theorem C1_counterexample :
    ∃ st0 st, run cfg8 session0 sched_stream_eos = some st0 ∧
      st0.decode_status = DECODE_THREAD_EXIT ∧ st0.caller = CallerPc.idle ∧
      run cfg8 st0 sched_late_call = some st ∧
      st.caller = CallerPc.get_output pkt_c ∧
      st.in_queue = [] ∧ st.trace = st0.trace ∧
      mk_in_buffer pkt_c ∉ st.trace ∧
      st.workers = [WorkerPc.head] :=
  ⟨_, _, rfl, rfl, rfl, rfl, rfl, rfl, rfl, by decide, rfl⟩

/-- Claim C4 (amended): on a freshly opened session, along every schedule in
which no allocation fails, the decoder accepts every buffer, and the calls
carry data packets `ps` followed by one packet `e` without data: before the
flush the decode trace followed by the waiting buffers is the buffers of `ps`
followed by the queued entry of `e`; once the worker has left its loop or the
register is `EXIT`, the queue is empty and the trace is the buffers of `ps`,
then the queued entry of `e`, then the flush buffer as last call, so exactly
two calls have a null data pointer, and no further step of the run adds a
call to the trace.  When the queue capacity is positive and `ps` is not empty
such a schedule exists that ends with the register at `EXIT`. -/
theorem C4_eos_flush_after_queued_eos (cfg : Config) (avctx : AVCodecContext)
    (h0 : 0 ≤ cfg.DECODE_SUCCESS) (hne : cfg.DECODE_SUCCESS ≠ cfg.DECODE_FORMAT_CHANGE) :
    (∀ ps e as st, (∀ p ∈ ps, p.has_data = true) → e.has_data = false →
      (∀ a ∈ as, Nominal cfg a) → calls as = ps ++ [e] →
      run cfg (opened avctx) as = some st →
        (st.decode_status ≠ DECODE_THREAD_EXIT → st.workers ≠ [WorkerPc.exiting] →
          st.trace ++ pending st ++ hand st = buffers ps ++ [mk_in_buffer e]) ∧
        (st.decode_status = DECODE_THREAD_EXIT ∨ st.workers = [WorkerPc.exiting] →
          st.in_queue = [] ∧
          (∃ ts, st.trace = buffers ps ++ [mk_in_buffer e, flush_buffer ts]) ∧
          (st.trace.filter fun b => b.data.isNone).length = 2 ∧
          ∀ a st', Nominal cfg a → calls [a] = [] → step cfg st a = some st' →
            st'.trace = st.trace ∧
            (st'.decode_status = DECODE_THREAD_EXIT ∨ st'.workers = [WorkerPc.exiting]))) ∧
    (0 < cfg.DECODE_QUEUE_SIZE → ∀ ps e, ps ≠ [] → (∀ p ∈ ps, p.has_data = true) →
      e.has_data = false →
      ∃ as st, (∀ a ∈ as, Nominal cfg a) ∧ calls as = ps ++ [e] ∧
        run cfg (opened avctx) as = some st ∧
        st.decode_status = DECODE_THREAD_EXIT ∧ st.workers = [] ∧
        st.trace = buffers ps ++ [mk_in_buffer e, flush_buffer 0]) := by
  constructor
  · intro ps e as st hdata he hn hcalls hr
    have hlast : EosLast ([] ++ calls as) := by
      intro q hq
      rw [List.nil_append, hcalls, List.dropLast_concat] at hq
      exact hdata q hq
    have hf : Fifo (ps ++ [e]) st := by
      have := fifo_run cfg h0 hne as [] (opened avctx) st (fifo_opened avctx) hn hlast hr
      rw [List.nil_append, hcalls] at this
      exact this
    have hb : buffers (ps ++ [e]) = buffers ps ++ [mk_in_buffer e] := buffers_append ps e
    constructor
    · intro hs hw
      rw [← hb]
      exact fifo_pending _ st hf hs hw
    · intro hfl
      obtain ⟨ts, ht, hq⟩ := fifo_flushed _ st hf hfl
      refine ⟨hq, ⟨ts, by rw [ht, hb]; simp⟩, ?_, ?_⟩
      · rw [ht, hb]
        simp only [List.filter_append, filter_null_buffers ps hdata, List.nil_append]
        simp [mk_in_buffer_no_data e he, flush_buffer]
      · intro a st' hna hca hstep
        have hf' : Fifo (ps ++ [e]) st' := by
          have := fifo_step cfg (ps ++ [e]) st st' a h0 hne hf hna (fun h => absurd hca h) hstep
          rw [hca, List.append_nil] at this
          exact this
        obtain ⟨l, hl⟩ := step_trace_prefix cfg st a st' hstep
        by_cases hfl' : st'.decode_status = DECODE_THREAD_EXIT ∨ st'.workers = [WorkerPc.exiting]
        · obtain ⟨ts', ht', -⟩ := fifo_flushed _ st' hf' hfl'
          refine ⟨?_, hfl'⟩
          have hlen := congrArg List.length ht'
          rw [hl, ht] at hlen
          simp only [List.length_append, List.length_cons, List.length_nil] at hlen
          have hnil : l = [] := List.eq_nil_of_length_eq_zero (by omega)
          rw [hl, hnil, List.append_nil]
        · exfalso
          have h1 : st'.decode_status ≠ DECODE_THREAD_EXIT := fun h => hfl' (Or.inl h)
          have h2 : st'.workers ≠ [WorkerPc.exiting] := fun h => hfl' (Or.inr h)
          have hp := fifo_pending _ st' hf' h1 h2
          have hlen := congrArg List.length hp
          rw [hl, ht] at hlen
          simp only [List.length_append, List.length_cons, List.length_nil] at hlen
          omega
  · intro hcap ps e hps hdata he
    obtain ⟨st1, hr1, hready1, hlive1, ht1⟩ :=
      run_sched_packets cfg h0 hne hcap ps (opened avctx) hdata (ready_opened avctx)
    obtain ⟨st2, hr2, hs2, hw2, -, -, ht2⟩ :=
      run_sched_eos cfg h0 hne hcap st1 e he hready1 (hlive1 hps).1
    refine ⟨sched_packets cfg ps ++ sched_eos cfg e, st2, ?_, ?_, ?_, hs2, hw2, ?_⟩
    · intro a ha
      rcases List.mem_append.mp ha with ha | ha
      · exact nominal_sched_packets cfg ps a ha
      · exact nominal_sched_eos cfg e a ha
    · rw [calls_append, calls_sched_packets, calls_sched_eos]
    · rw [run_append, hr1]; exact hr2
    · rw [ht2, ht1]
      show [] ++ buffers ps ++ [mk_in_buffer e, flush_buffer 0] = _
      simp

/-- Witness for C4: the sample stream of two data packets and the end-of-stream
packet ends at `EXIT` with two null-data calls in the trace. -/
theorem C4_eos_flush_after_queued_eos_witness :
    ∃ st, run cfg8 session0 sched_stream_eos = some st ∧
      st.decode_status = DECODE_THREAD_EXIT ∧
      st.in_queue = [] ∧
      (∃ ts, st.trace = buffers [pkt_a, pkt_b] ++ [mk_in_buffer pkt_eos, flush_buffer ts]) ∧
      (st.trace.filter fun b => b.data.isNone).length = 2 :=
  ⟨_, rfl, rfl,
    (((C4_eos_flush_after_queued_eos cfg8 (avctx_h264 1 25) (by decide) (by decide)).1
      [pkt_a, pkt_b] pkt_eos sched_stream_eos _ (by decide) rfl (by decide) rfl rfl).2
      (Or.inl rfl)).1,
    (((C4_eos_flush_after_queued_eos cfg8 (avctx_h264 1 25) (by decide) (by decide)).1
      [pkt_a, pkt_b] pkt_eos sched_stream_eos _ (by decide) rfl (by decide) rfl rfl).2
      (Or.inl rfl)).2.1,
    (((C4_eos_flush_after_queued_eos cfg8 (avctx_h264 1 25) (by decide) (by decide)).1
      [pkt_a, pkt_b] pkt_eos sched_stream_eos _ (by decide) rfl (by decide) rfl rfl).2
      (Or.inl rfl)).2.2.1⟩

/-- Counterexample to claim C4 as stated: two data packets (the second one
submitted to the running worker) and one end-of-stream packet, with a decoder
that accepts every buffer, end with the register at `EXIT` and a trace that
holds two calls with null data and size zero: the queued end-of-stream buffer
and the flush buffer. -/
theorem C4_counterexample :
    ∃ st, run cfg8 session0 sched_stream_eos = some st ∧
      st.decode_status = DECODE_THREAD_EXIT ∧
      st.trace =
        [mk_in_buffer pkt_a, mk_in_buffer pkt_b, mk_in_buffer pkt_eos, flush_buffer 0] ∧
      mk_in_buffer pkt_eos = { data := none, size := 0, timeStamp := 0 } ∧
      (st.trace.filter fun b => b.data.isNone && b.size == 0).length = 2 :=
  ⟨_, rfl, rfl, rfl, rfl, rfl⟩

/-! ### The frame-produced flag (C7) -/

/-- Claim C7, evaluation at the failing input: the first call on an opened
session carries the end-of-stream packet while `*got_frame` holds 1.  The call
returns the packet size without a frame, with the rendered count unchanged,
and `*got_frame` still holds 1.  On the other return without a frame, from
the polling loop, a call entered with `*got_frame` at 1 returns with it at 0. -/
theorem C7_flag_left_untouched :
    (∃ st, run cfg8 session0 (sched_eos_first 1) = some st ∧
      st.caller = CallerPc.idle ∧ st.ret = some (pkt_eos.size : Int) ∧
      st.images = [] ∧ st.render_count = 0 ∧ st.got_frame = 1) ∧
    (∃ st, run cfg8 session0 (sched_no_frame 1) = some st ∧
      st.caller = CallerPc.idle ∧ st.ret = some (pkt_a.size : Int) ∧
      st.images = [] ∧ st.render_count = 0 ∧ st.got_frame = 0) :=
  ⟨⟨_, rfl, rfl, rfl, rfl, rfl, rfl⟩, ⟨_, rfl, rfl, rfl, rfl, rfl, rfl⟩⟩

/-! ### The release callback (C8) -/

theorem step_image_fresh (cfg : Config) (i : Nat) (st : Session) (a : Action) (st' : Session)
    (h : ImageFresh i st) (ha : a ≠ Action.recycle i) (hs : step cfg st a = some st') :
    ImageFresh i st' := by
  unfold ImageFresh at h ⊢
  cases a <;>
    simp only [step, caller_step, yami_dec_frame_entry, yami_dec_frame_submit,
      yami_dec_frame_status_update, yami_dec_frame_get_output, yami_dec_frame_poll_output,
      yami_dec_close_iter, yami_dec_close_rest, ff_yami_decode_thread,
      ff_yami_decode_thread_head, ff_yami_decode_thread_decode,
      ff_yami_decode_thread_decode_tail, ff_yami_decode_thread_pop,
      ff_yami_decode_thread_exit, ff_yami_recycle_frame] at hs <;>
    (repeat' split at hs) <;>
    (try simp only [Option.some.injEq, reduceCtorEq] at hs) <;>
    (try subst hs) <;>
    (try simpa using h)
  · intro img himg
    simp only [List.getElem?_append] at himg
    split_ifs at himg with hlt
    · exact h img himg
    · rcases hk : i - st.images.length with _ | k
      · rw [hk] at himg; simp at himg; subst himg; simp
      · rw [hk] at himg; simp at himg
  · rename_i j x img0 hj hd
    intro img himg
    have hne : j ≠ i := fun e => ha (by rw [e])
    simp only [List.getElem?_set_ne hne] at himg
    exact h img himg

/-- Claim C8 (amended): an image delivered by `yami_dec_frame` on which the
release callback has not run yet holds its surface and has not been freed; a
single invocation of `ff_yami_recycle_frame` on it while the decoder handle is
non-null drops the surface reference and frees the wrapper once, leaving all
other images as they are; when the decoder handle is null the callback leaves
the session unchanged. -/
theorem C8_release_with_decoder (cfg : Config) (avctx : AVCodecContext) (as : List Action)
    (st : Session) (i : Nat) (img : YamiImage)
    (hno : ∀ a ∈ as, a ≠ Action.recycle i)
    (hr : run cfg (opened avctx) as = some st)
    (hi : st.images[i]? = some img) :
    img.frees = 0 ∧ img.output_frame.isSome = true ∧
    (st.decoder = true →
      ∃ st', step cfg st (Action.recycle i) = some st' ∧
        st'.images[i]? = some { output_frame := none, frees := 1 } ∧
        (∀ j, j ≠ i → st'.images[j]? = st.images[j]?)) ∧
    (st.decoder = false → step cfg st (Action.recycle i) = some st) := by
  have hfresh : ImageFresh i st :=
    run_invariant cfg (ImageFresh i) (fun a => a ≠ Action.recycle i)
      (fun s a s' hp ha hs => step_image_fresh cfg i s a s' hp ha hs)
      as (opened avctx) st (by intro img h; simp [opened, zeroed] at h) hno hr
  obtain ⟨hf, ho⟩ := hfresh img hi
  have hlt := index_lt_of_getElem? _ _ _ hi
  refine ⟨hf, ho, ?_, ?_⟩
  · intro hd
    refine ⟨_, by simp [step, ff_yami_recycle_frame, hi, hd]; rfl, ?_, ?_⟩
    · simp [hlt, hf]
    · intro j hj
      simp [List.getElem?_set_ne (Ne.symm hj)]
  · intro hd
    simp [step, ff_yami_recycle_frame, hi, hd]

/-- Witness for C8: the frame delivered by the sample schedule is released by one
invocation of the callback while the session is open. -/
theorem C8_release_with_decoder_witness :
    ∃ st, run cfg8 session0 sched_deliver = some st ∧
      st.decoder = true ∧
      st.images = [{ output_frame := some { surface := 7, timeStamp := 0 }, frees := 0 }] ∧
      ∃ st', step cfg8 st (Action.recycle 0) = some st' ∧
        st'.images[0]? = some { output_frame := none, frees := 1 } :=
  ⟨_, rfl, rfl, rfl,
    ((C8_release_with_decoder cfg8 (avctx_h264 1 25) sched_deliver _ 0
      { output_frame := some { surface := 7, timeStamp := 0 }, frees := 0 }
      (by decide) rfl rfl).2.2.1 rfl).imp fun _ h => ⟨h.1, h.2.1⟩⟩

/-- Counterexample to claim C8 as stated: after the session has been closed the
decoder handle is null, and the release callback on the delivered image
leaves its surface reference in place and does not free the wrapper. -/
theorem C8_counterexample :
    ∃ st st', run cfg8 session0 sched_deliver_close = some st ∧
      st.decoder = false ∧
      st.images = [{ output_frame := some { surface := 7, timeStamp := 0 }, frees := 0 }] ∧
      step cfg8 st (Action.recycle 0) = some st' ∧
      st'.images = [{ output_frame := some { surface := 7, timeStamp := 0 }, frees := 0 }] :=
  ⟨_, _, rfl, rfl, rfl, rfl, rfl⟩

/-! ### Closing twice (C9) -/

/-- Claim C9, evaluation at the failing input: one call of `yami_dec_close`
releases the decoder, frees the allocator binding and deletes the queue once;
a second call skips the decoder, but frees the allocator binding again, reads
the deleted queue and deletes it again. -/
theorem C9_second_close_frees_again :
    (∃ st, run cfg8 session0 sched_close = some st ∧
      st.decoder_releases = 1 ∧ st.p_alloc_frees = 1 ∧ st.in_queue_deletes = 1 ∧
      st.in_queue_stale_reads = 0) ∧
    (∃ st, run cfg8 session0 (sched_close ++ sched_close) = some st ∧
      st.decoder_releases = 1 ∧ st.p_alloc_frees = 2 ∧ st.in_queue_deletes = 2 ∧
      st.in_queue_stale_reads = 1) :=
  ⟨⟨_, rfl, rfl, rfl, rfl, rfl⟩, ⟨_, rfl, rfl, rfl, rfl, rfl⟩⟩

end Yami
